/-
  Verification of the NewCoin / EnergyAI blockchain core.

  Shallow embedding of the repository's ledger engine:
    - src/core/Constants.js      (configuration values)
    - src/core/Transaction.js    (transaction records and validity)
    - src/core/Block.js          (blocks, hashing, energy bonus)
    - src/core/Blockchain.js     (the ledger: pool, mining, balances, validity)
    - src/utils/Cache.js         (TTL + capacity bounded cache)
    - src/utils/EnergyUtils.js   (reward schedule and bonus calculations)
    - src/utils/Validation.js    (input validation guards)

  Modelling conventions:
    - JS numbers are modelled as exact rationals (ℚ); `Date.now()` readings,
      nonces found by the proof-of-work search, and the random compute-proof
      string are oracle parameters supplied to each operation.
    - The SHA-256 digest is abstracted as a function `H` from a block's hash
      preimage to an opaque digest type `D`; collision resistance is expressed
      as injectivity of `H` where a claim needs it.  The transaction digest
      and the external secp256k1 signature check are likewise abstracted.
    - JS exceptions are modelled with `Except` (or, for `addTransaction`,
      whose cache write precedes a possible throw, with an `Option err`
      paired with the post-call state).
-/
import Mathlib

namespace NewCoin

/-! ## Constants (src/core/Constants.js) -/

namespace BLOCKCHAIN_CONFIG

def INITIAL_DIFFICULTY : Nat := 4
def MIN_DIFFICULTY : Nat := 2
def MAX_DIFFICULTY : Nat := 8
def DIFFICULTY_ADJUSTMENT_INTERVAL : Nat := 10
def TARGET_BLOCK_TIME : ℚ := 10000

def BASE_MINING_REWARD : ℚ := 100
def HALVING_INTERVAL : Nat := 210000

def ENERGY_TO_TOKEN_RATE : ℚ := 10

def RENEWABLE_ENERGY_BONUS : ℚ := 1.5
def NUCLEAR_ENERGY_BONUS : ℚ := 1.2
def HIGH_EFFICIENCY_THRESHOLD : ℚ := 80
def HIGH_EFFICIENCY_BONUS : ℚ := 1.3
def MEDIUM_EFFICIENCY_THRESHOLD : ℚ := 60
def MEDIUM_EFFICIENCY_BONUS : ℚ := 1.1
def INFERENCE_WORKLOAD_BONUS : ℚ := 1.2

def KWH_PER_GPU_HOUR : ℚ := 0.3
def CO2_PER_KWH : ℚ := 0.5

def CARBON_CREDIT_PRICE_PER_KG : ℚ := 0.5

def MAX_PENDING_TRANSACTIONS : Nat := 1000

def CACHE_TTL : Nat := 5000
def ENABLE_BALANCE_CACHE : Bool := true
def ENABLE_STATS_CACHE : Bool := true

def GENESIS_ENERGY_SOURCE : String := "renewable"
def GENESIS_EFFICIENCY_SCORE : ℚ := 100

end BLOCKCHAIN_CONFIG

namespace TRANSACTION_TYPES

def TRANSFER : String := "transfer"
def ENERGY_TRADE : String := "energy_trade"
def COMPUTE_ALLOCATION : String := "compute_allocation"
def CARBON_CREDIT : String := "carbon_credit"
def MINING_REWARD : String := "mining_reward"

end TRANSACTION_TYPES

namespace VALIDATION_LIMITS

def MIN_TRANSACTION_AMOUNT : ℚ := 0.000001
def MAX_TRANSACTION_AMOUNT : ℚ := 1000000000
def MIN_ENERGY_AMOUNT : ℚ := 0.001
def MAX_ENERGY_AMOUNT : ℚ := 1000000
def MIN_COMPUTE_UNITS : ℚ := 0.1
def MAX_COMPUTE_UNITS : ℚ := 100000
def MIN_CARBON_AMOUNT : ℚ := 0.001
def MAX_CARBON_AMOUNT : ℚ := 1000000

end VALIDATION_LIMITS

/-! ## JavaScript coercion helpers

JS `x || d` falls back to `d` when `x` is falsy (`0`, `''`, `null`,
`undefined`).  We model absent object fields by the falsy value of the
corresponding type, so `x || d` becomes the following. -/

/-- JS `x || d` for numbers: `0` is falsy. -/
def jsOrQ (x d : ℚ) : ℚ := if x = 0 then d else x

/-- JS `x || d` for strings: `""` is falsy. -/
def jsOrS (x d : String) : String := if x = "" then d else x

/-- JS truthiness of a nullable string (`null` and `""` are falsy). -/
def jsTruthy : Option String → Bool
  | none => false
  | some s => !(s == "")

/-! ## JS `Map` as an insertion-ordered association list -/

/-- `Map.get` -/
def jsMapGet {β : Type} (es : List (String × β)) (k : String) : Option β :=
  (es.find? (fun e => e.1 == k)).map (·.2)

/-- `Map.delete` (keys are unique, so removing every match is the same). -/
def jsMapDelete {β : Type} (es : List (String × β)) (k : String) :
    List (String × β) :=
  es.filter (fun e => !(e.1 == k))

/-- `Map.set`: update in place if the key is present, else append. -/
def jsMapSet {β : Type} (es : List (String × β)) (k : String) (v : β) :
    List (String × β) :=
  if es.any (fun e => e.1 == k) then
    es.map (fun e => if e.1 == k then (k, v) else e)
  else
    es ++ [(k, v)]

/-- `this.cache.keys().next().value` followed by `delete`: drop the first
entry (no-op on an empty map, as in JS). -/
def jsMapDeleteFirst {β : Type} (es : List (String × β)) : List (String × β) :=
  match es with
  | [] => []
  | e :: _ => jsMapDelete es e.1

/-! ## Transaction records (src/core/Transaction.js) -/

/-- The open metadata dictionary attached to a transaction.  Fields the JS
code never set are left at their falsy defaults. -/
structure Metadata where
  energyAmount : ℚ := 0
  pricePerKWh : ℚ := 0
  energySource : String := ""
  bonus : ℚ := 0
  computeUnits : ℚ := 0
  aiWorkloadType : String := ""
  estimatedEnergy : ℚ := 0
  carbonAmount : ℚ := 0
  creditType : String := ""
  baseReward : ℚ := 0
  energyBonus : ℚ := 0
  totalReward : ℚ := 0
  blockHeight : Nat := 0
  deriving DecidableEq, Repr

/-- A transaction record.  `fromAddress = none` is the system sentinel
(JS `null`).  The kind-specific fields the constructor copies out of the
metadata are recovered through accessors rather than duplicated. -/
structure Transaction where
  fromAddress : Option String
  toAddress : String
  amount : ℚ
  timestamp : Nat
  transactionType : String
  metadata : Metadata
  signature : Option String
  deriving DecidableEq, Repr

/-- The preimage of `Transaction.calculateHash`: everything except the
signature (`fromAddress + toAddress + amount + timestamp + transactionType
+ JSON.stringify(metadata)`). -/
structure TxCore where
  fromAddress : Option String
  toAddress : String
  amount : ℚ
  timestamp : Nat
  transactionType : String
  metadata : Metadata
  deriving DecidableEq, Repr

def Transaction.core (tx : Transaction) : TxCore :=
  ⟨tx.fromAddress, tx.toAddress, tx.amount, tx.timestamp,
   tx.transactionType, tx.metadata⟩

/-- `new Transaction(from, to, amount, type, metadata)`: fields stored as
given, `signature` starts `null`, timestamp read from the clock. -/
def mkTransaction (fromAddress : Option String) (toAddress : String)
    (amount : ℚ) (transactionType : String) (metadata : Metadata)
    (now : Nat) : Transaction :=
  ⟨fromAddress, toAddress, amount, now, transactionType, metadata, none⟩

/-- Copied field `tx.energyAmount` (set for `energy_trade`, else undefined,
which coerces to 0 under `|| 0`). -/
def Transaction.energyAmountField (tx : Transaction) : ℚ :=
  if tx.transactionType = TRANSACTION_TYPES.ENERGY_TRADE then
    jsOrQ tx.metadata.energyAmount 0
  else 0

/-- Copied field `tx.computeUnits`. -/
def Transaction.computeUnitsField (tx : Transaction) : ℚ :=
  if tx.transactionType = TRANSACTION_TYPES.COMPUTE_ALLOCATION then
    jsOrQ tx.metadata.computeUnits 0
  else 0

/-- Copied field `tx.estimatedEnergy`. -/
def Transaction.estimatedEnergyField (tx : Transaction) : ℚ :=
  if tx.transactionType = TRANSACTION_TYPES.COMPUTE_ALLOCATION then
    jsOrQ tx.metadata.estimatedEnergy 0
  else 0

/-! ## Blocks (src/core/Block.js) -/

/-- The normalized `energyData` record stored on a block (the constructor's
`|| fallback` defaults already applied).  `computeProof = ""` models the
JS `null`. -/
structure EnergyData where
  totalEnergyConsumed : ℚ
  aiComputeUnits : ℚ
  carbonFootprint : ℚ
  energySource : String
  efficiencyScore : ℚ
  aiWorkloadType : String
  computeProof : String
  deriving DecidableEq, Repr

/-- The energy data object passed to the `Block` constructor. -/
structure EnergyInput where
  totalEnergyConsumed : ℚ := 0
  aiComputeUnits : ℚ := 0
  carbonFootprint : ℚ := 0
  energySource : String := ""
  efficiencyScore : ℚ := 0
  aiWorkloadType : String := ""
  computeProof : String := ""
  deriving DecidableEq, Repr

/-! ## EnergyUtils (src/utils/EnergyUtils.js) -/

open BLOCKCHAIN_CONFIG in
/-- `calculateEnergyBonus(energySource, efficiencyScore, aiWorkloadType)`. -/
def calculateEnergyBonus (energySource : String) (efficiencyScore : ℚ)
    (aiWorkloadType : String) : ℚ :=
  let bonus : ℚ := 1.0
  let bonus := if energySource = "renewable" then bonus * RENEWABLE_ENERGY_BONUS
    else if energySource = "nuclear" then bonus * NUCLEAR_ENERGY_BONUS
    else bonus
  let bonus := if efficiencyScore > HIGH_EFFICIENCY_THRESHOLD then
      bonus * HIGH_EFFICIENCY_BONUS
    else if efficiencyScore > MEDIUM_EFFICIENCY_THRESHOLD then
      bonus * MEDIUM_EFFICIENCY_BONUS
    else bonus
  let bonus := if aiWorkloadType = "inference" then
      bonus * INFERENCE_WORKLOAD_BONUS
    else bonus
  bonus

/-- `calculateComputeCost(computeUnits)` returns `{ cost, estimatedEnergy }`. -/
def calculateComputeCost (computeUnits : ℚ) : ℚ × ℚ :=
  let estimatedEnergy := computeUnits * BLOCKCHAIN_CONFIG.KWH_PER_GPU_HOUR
  let cost := estimatedEnergy * BLOCKCHAIN_CONFIG.ENERGY_TO_TOKEN_RATE
  (cost, estimatedEnergy)

/-- `calculateCarbonCreditCost(carbonAmount)`. -/
def calculateCarbonCreditCost (carbonAmount : ℚ) : ℚ :=
  carbonAmount * BLOCKCHAIN_CONFIG.CARBON_CREDIT_PRICE_PER_KG

/-- `calculateMiningReward(blockHeight)`: halving schedule with the
`0.00000001` minimum. -/
def calculateMiningReward (blockHeight : Nat) : ℚ :=
  let halvings := blockHeight / BLOCKCHAIN_CONFIG.HALVING_INTERVAL
  let reward := BLOCKCHAIN_CONFIG.BASE_MINING_REWARD / 2 ^ halvings
  max reward 0.00000001

/-! ## Validation (src/utils/Validation.js)

The `typeof`/`NaN` guards have no counterpart for exact rationals and are
omitted; every other check is modelled.  Error messages are reduced to the
offending field name, which is what the errors carry. -/

/-- `ValidationError` with the offending field name. -/
structure ValidationError where
  field : String
  deriving DecidableEq, Repr

open VALIDATION_LIMITS in
/-- `validateAmount(amount, fieldName)`. -/
def validateAmount (amount : ℚ) (fieldName : String) :
    Except ValidationError Bool :=
  if amount < MIN_TRANSACTION_AMOUNT then .error ⟨fieldName⟩
  else if amount > MAX_TRANSACTION_AMOUNT then .error ⟨fieldName⟩
  else .ok true

open VALIDATION_LIMITS in
/-- `validateEnergyAmount(energyAmount)`. -/
def validateEnergyAmount (energyAmount : ℚ) : Except ValidationError Bool :=
  if energyAmount < MIN_ENERGY_AMOUNT then .error ⟨"energyAmount"⟩
  else if energyAmount > MAX_ENERGY_AMOUNT then .error ⟨"energyAmount"⟩
  else .ok true

open VALIDATION_LIMITS in
/-- `validateComputeUnits(computeUnits)`. -/
def validateComputeUnits (computeUnits : ℚ) : Except ValidationError Bool :=
  if computeUnits < MIN_COMPUTE_UNITS then .error ⟨"computeUnits"⟩
  else if computeUnits > MAX_COMPUTE_UNITS then .error ⟨"computeUnits"⟩
  else .ok true

open VALIDATION_LIMITS in
/-- `validateCarbonAmount(carbonAmount)`. -/
def validateCarbonAmount (carbonAmount : ℚ) : Except ValidationError Bool :=
  if carbonAmount < MIN_CARBON_AMOUNT then .error ⟨"carbonAmount"⟩
  else if carbonAmount > MAX_CARBON_AMOUNT then .error ⟨"carbonAmount"⟩
  else .ok true

/-- `validateAddress(address, fieldName)`: non-empty string of length ≥ 10. -/
def validateAddress (address : String) (fieldName : String) :
    Except ValidationError Bool :=
  if address = "" then .error ⟨fieldName⟩
  else if address.length < 10 then .error ⟨fieldName⟩
  else .ok true

/-- `validateEnergySource(energySource)`. -/
def validateEnergySource (energySource : String) :
    Except ValidationError Bool :=
  if energySource = "renewable" ∨ energySource = "nuclear" ∨
      energySource = "fossil" ∨ energySource = "mixed" then .ok true
  else .error ⟨"energySource"⟩

/-! ## Cache (src/utils/Cache.js) -/

structure CacheEntry (α : Type) where
  value : α
  timestamp : Nat
  deriving DecidableEq, Repr

/-- The map underlying a cache keeps JS `Map` insertion order. -/
structure Cache (α : Type) where
  entries : List (String × CacheEntry α)
  maxSize : Nat
  ttl : Nat
  deriving DecidableEq, Repr

/-- `new Cache(maxSize, ttl)`. -/
def Cache.init (α : Type) (maxSize ttl : Nat) : Cache α :=
  ⟨[], maxSize, ttl⟩

/-- `Cache.get(key)` at clock reading `now`: miss on absence, eviction of an
expired entry, and a move-to-end on a hit (the entry object, with its
original timestamp, is re-inserted). -/
def Cache.get {α : Type} (now : Nat) (c : Cache α) (key : String) :
    Option α × Cache α :=
  match jsMapGet c.entries key with
  | none => (none, c)
  | some item =>
    if now - item.timestamp > c.ttl then
      (none, { c with entries := jsMapDelete c.entries key })
    else
      (some item.value,
       { c with entries := jsMapSet (jsMapDelete c.entries key) key item })

/-- `Cache.set(key, value)` at clock reading `now`: drop the first entry
when at capacity, then insert with a fresh timestamp. -/
def Cache.set {α : Type} (now : Nat) (c : Cache α) (key : String) (v : α) :
    Cache α :=
  let es := if c.entries.length ≥ c.maxSize then jsMapDeleteFirst c.entries
    else c.entries
  { c with entries := jsMapSet es key ⟨v, now⟩ }

/-- `Cache.clear()`. -/
def Cache.clear {α : Type} (c : Cache α) : Cache α :=
  { c with entries := [] }

/-! ## Blocks, digests, and the external cryptographic capability -/

/-- A block of the chain; `D` is the opaque digest type (hex strings in the
source).  `energyBonus` is computed once at construction time. -/
structure Block (D : Type) where
  timestamp : Nat
  transactions : List Transaction
  previousHash : D
  hash : D
  nonce : Nat
  energyData : EnergyData
  energyBonus : ℚ
  deriving DecidableEq, Repr

/-- The preimage of `Block.calculateHash`: `previousHash + timestamp +
JSON.stringify(transactions) + JSON.stringify(energyData) + nonce`.
The stored hash and the mining metrics are not part of it. -/
structure BlockContents (D : Type) where
  previousHash : D
  timestamp : Nat
  transactions : List Transaction
  energyData : EnergyData
  nonce : Nat
  deriving DecidableEq, Repr

/-- The cryptographic capabilities the core consumes (SHA-256 over block
and transaction serializations, secp256k1 signature verification), plus the
digest constants `'0'` (genesis previous hash) and `''` (unmined hash). -/
structure Crypto (D : Type) where
  dzero : D
  dempty : D
  blockHash : BlockContents D → D
  txHash : TxCore → D
  verify : String → D → String → Bool

variable {D : Type}

def Block.contents (b : Block D) : BlockContents D :=
  ⟨b.previousHash, b.timestamp, b.transactions, b.energyData, b.nonce⟩

/-- `Block.calculateHash()`. -/
def Block.calculateHash (C : Crypto D) (b : Block D) : D :=
  C.blockHash b.contents

/-- The `Block` constructor: normalizes the energy data with its `||`
fallbacks, computes the energy bonus, and starts with `hash = ''` and
`nonce = 0`. -/
def mkBlock (C : Crypto D) (timestamp : Nat) (transactions : List Transaction)
    (previousHash : D) (ed : EnergyInput) : Block D :=
  let energyData : EnergyData :=
    { totalEnergyConsumed := jsOrQ ed.totalEnergyConsumed 0
      aiComputeUnits := jsOrQ ed.aiComputeUnits 0
      carbonFootprint := jsOrQ ed.carbonFootprint 0
      energySource := jsOrS ed.energySource "mixed"
      efficiencyScore := jsOrQ ed.efficiencyScore 0
      aiWorkloadType := jsOrS ed.aiWorkloadType "general"
      computeProof := ed.computeProof }
  { timestamp := timestamp
    transactions := transactions
    previousHash := previousHash
    hash := C.dempty
    nonce := 0
    energyData := energyData
    energyBonus := calculateEnergyBonus energyData.energySource
      energyData.efficiencyScore energyData.aiWorkloadType }

/-- `Block.mineBlock(difficulty, minerAddress)`: the unbounded nonce search
is abstracted by the oracle `nonce` it finds; its observable postcondition
is that the stored hash is the digest of the block's contents at that
nonce.  (The leading-zero property and the mining metrics play no role in
any claim.) -/
def Block.mineBlock (C : Crypto D) (nonce : Nat) (b : Block D) : Block D :=
  let b' := { b with nonce := nonce }
  { b' with hash := Block.calculateHash C b' }

/-- `Transaction.calculateHash()`. -/
def Transaction.calculateHash (C : Crypto D) (tx : Transaction) : D :=
  C.txHash tx.core

/-- `Transaction.isValid()`: system records (null sender) are always valid;
otherwise a missing or empty signature *throws*, and a present signature is
checked against the sender's public key over the record's digest. -/
def Transaction.isValid (C : Crypto D) (tx : Transaction) :
    Except String Bool :=
  match tx.fromAddress with
  | none => .ok true
  | some sender =>
    match tx.signature with
    | none => .error "No signature in this transaction"
    | some sig =>
      if sig = "" then .error "No signature in this transaction"
      else .ok (C.verify sender (tx.calculateHash C) sig)

/-- `Block.hasValidTransactions()` over a transaction list: short-circuits
on the first invalid record, propagating any throw from `isValid`. -/
def validTxList (C : Crypto D) : List Transaction → Except String Bool
  | [] => .ok true
  | tx :: rest =>
    match tx.isValid C with
    | .error e => .error e
    | .ok false => .ok false
    | .ok true => validTxList C rest

/-- `Block.hasValidTransactions()`. -/
def Block.hasValidTransactions (C : Crypto D) (b : Block D) :
    Except String Bool :=
  validTxList C b.transactions

/-! ## The Blockchain class (src/core/Blockchain.js) -/

/-- Per-provider bookkeeping in `energyProviders`. -/
structure ProviderData where
  totalEnergy : ℚ
  totalTokens : ℚ
  energySource : String
  deriving DecidableEq, Repr

/-- The mutable state owned by a `Blockchain` instance. -/
structure Blockchain (D : Type) where
  chain : List (Block D)
  difficulty : Nat
  pendingTransactions : List Transaction
  miningReward : ℚ
  energyToTokenRate : ℚ
  totalEnergyTokenized : ℚ
  totalCarbonOffset : ℚ
  totalAIComputeUnits : ℚ
  validators : List (String × ℚ)
  energyProviders : List (String × ProviderData)
  balanceCache : Cache ℚ
  statsCache : Cache ℚ
  transactionIndex : List (String × List (Nat × Nat))
  blockTimeHistory : List Nat
  deriving Repr

/-- `createGenesisBlock()`: construct the genesis block and stamp its hash. -/
def createGenesisBlock (C : Crypto D) (t0 : Nat) : Block D :=
  let genesisBlock := mkBlock C t0 [] C.dzero
    { totalEnergyConsumed := 0
      aiComputeUnits := 0
      carbonFootprint := 0
      energySource := BLOCKCHAIN_CONFIG.GENESIS_ENERGY_SOURCE
      efficiencyScore := BLOCKCHAIN_CONFIG.GENESIS_EFFICIENCY_SCORE
      aiWorkloadType := "genesis"
      computeProof := "GENESIS_BLOCK" }
  { genesisBlock with hash := genesisBlock.calculateHash C }

/-- `_indexBlock` helper: append one location under one address key. -/
def indexAdd (idx : List (String × List (Nat × Nat))) (addr : String)
    (loc : Nat × Nat) : List (String × List (Nat × Nat)) :=
  jsMapSet idx addr ((jsMapGet idx addr).getD [] ++ [loc])

/-- `_indexBlock(block, blockIndex)`: index each transaction of the block
under its (truthy) sender and recipient addresses. -/
def indexBlock (idx : List (String × List (Nat × Nat))) (b : Block D)
    (blockIndex : Nat) : List (String × List (Nat × Nat)) :=
  b.transactions.enum.foldl
    (fun idx p =>
      let txIndex := p.1
      let tx := p.2
      let idx := if jsTruthy tx.fromAddress then
          indexAdd idx (tx.fromAddress.getD "") (blockIndex, txIndex)
        else idx
      if tx.toAddress ≠ "" then
        indexAdd idx tx.toAddress (blockIndex, txIndex)
      else idx)
    idx

/-- The `Blockchain` constructor. -/
def Blockchain.init (C : Crypto D) (t0 : Nat) : Blockchain D :=
  let genesis := createGenesisBlock C t0
  { chain := [genesis]
    difficulty := BLOCKCHAIN_CONFIG.INITIAL_DIFFICULTY
    pendingTransactions := []
    miningReward := BLOCKCHAIN_CONFIG.BASE_MINING_REWARD
    energyToTokenRate := BLOCKCHAIN_CONFIG.ENERGY_TO_TOKEN_RATE
    totalEnergyTokenized := 0
    totalCarbonOffset := 0
    totalAIComputeUnits := 0
    validators := []
    energyProviders := []
    balanceCache := Cache.init ℚ 1000 BLOCKCHAIN_CONFIG.CACHE_TTL
    statsCache := Cache.init ℚ 10 BLOCKCHAIN_CONFIG.CACHE_TTL
    transactionIndex := indexBlock [] genesis 0
    blockTimeHistory := [] }

/-- `getLatestBlock()` (the chain is never empty in any program state; the
default is never reached). -/
def Blockchain.getLatestBlock (C : Crypto D) (s : Blockchain D) : Block D :=
  s.chain.getLastD (createGenesisBlock C 0)

/-- `_invalidateCaches()`. -/
def Blockchain.invalidateCaches (s : Blockchain D) : Blockchain D :=
  { s with balanceCache := s.balanceCache.clear
           statsCache := s.statsCache.clear }

open BLOCKCHAIN_CONFIG in
/-- `blockTimeHistory.slice(-DIFFICULTY_ADJUSTMENT_INTERVAL)`: the last
`interval` seal-time samples (all of them when fewer exist). -/
def recentTimes (blockTimeHistory : List Nat) : List Nat :=
  blockTimeHistory.drop
    (blockTimeHistory.length - DIFFICULTY_ADJUSTMENT_INTERVAL)

/-- `recentTimes.reduce((a, b) => a + b, 0) / recentTimes.length`. -/
def avgBlockTime (blockTimeHistory : List Nat) : ℚ :=
  ((recentTimes blockTimeHistory).foldl (fun a b => a + (b : ℚ)) 0) /
    ((recentTimes blockTimeHistory).length : ℚ)

open BLOCKCHAIN_CONFIG in
/-- `_adjustDifficulty()` as a function of the current difficulty, the
(post-append) chain length, and the block-time history. -/
def adjustDifficulty (difficulty : Nat) (chainLength : Nat)
    (blockTimeHistory : List Nat) : Nat :=
  if chainLength % DIFFICULTY_ADJUSTMENT_INTERVAL ≠ 0 then difficulty
  else if blockTimeHistory.length < 2 then difficulty
  else
    if avgBlockTime blockTimeHistory < TARGET_BLOCK_TIME * 0.5 then
      min (difficulty + 1) MAX_DIFFICULTY
    else if avgBlockTime blockTimeHistory > TARGET_BLOCK_TIME * 2 then
      max (difficulty - 1) MIN_DIFFICULTY
    else difficulty

/-- The balance derivation loop inside `getBalanceOfAddress`: subtract sent
amounts, add received amounts, over every transaction of every block. -/
def scanBalance (chain : List (Block D)) (address : String) : ℚ :=
  chain.foldl
    (fun balance block =>
      block.transactions.foldl
        (fun balance trans =>
          let balance := if trans.fromAddress = some address then
              balance - trans.amount
            else balance
          if trans.toAddress = address then balance + trans.amount
          else balance)
        balance)
    0

/-- `getBalanceOfAddress(address)` at clock reading `now`: read-through
balance cache over the full-chain scan. -/
def Blockchain.getBalanceOfAddress (now : Nat) (s : Blockchain D)
    (address : String) : ℚ × Blockchain D :=
  if BLOCKCHAIN_CONFIG.ENABLE_BALANCE_CACHE then
    match s.balanceCache.get now ("balance_" ++ address) with
    | (some cached, c) => (cached, { s with balanceCache := c })
    | (none, c) =>
      let balance := scanBalance s.chain address
      (balance,
       { s with balanceCache := c.set now ("balance_" ++ address) balance })
  else
    (scanBalance s.chain address, s)

/-- The errors `addTransaction` can throw. -/
inductive TxError where
  /-- 'Transaction must include from and to address' -/
  | missingAddress : TxError
  /-- a throw propagated out of `Transaction.isValid()` -/
  | validityThrow (msg : String) : TxError
  /-- 'Cannot add invalid transaction to chain' -/
  | invalidTransaction : TxError
  /-- 'Insufficient balance. Required: …, Available: …' -/
  | insufficientBalance (required available : ℚ) : TxError
  /-- 'Transaction pool is full. Please try again later.' -/
  | poolFull : TxError
  deriving DecidableEq, Repr

/-- `addTransaction(transaction)` at clock reading `now`.  The result pairs
the thrown error (if any) with the post-call state: the balance-cache write
performed while checking funds persists even when a later check throws. -/
def Blockchain.addTransaction (C : Crypto D) (now : Nat) (tx : Transaction)
    (s : Blockchain D) : Option TxError × Blockchain D :=
  if ¬ (jsTruthy tx.fromAddress ∧ tx.toAddress ≠ "") then
    (some .missingAddress, s)
  else
    match tx.isValid C with
    | .error msg => (some (.validityThrow msg), s)
    | .ok false => (some .invalidTransaction, s)
    | .ok true =>
      let r := s.getBalanceOfAddress now (tx.fromAddress.getD "")
      let balance := r.1
      let s := r.2
      if balance < tx.amount then
        (some (.insufficientBalance tx.amount balance), s)
      else if s.pendingTransactions.length ≥
          BLOCKCHAIN_CONFIG.MAX_PENDING_TRANSACTIONS then
        (some .poolFull, s)
      else
        (none,
         { s with pendingTransactions := s.pendingTransactions ++ [tx] })

/-- `tokenizeEnergy(providerAddress, energyAmount, energySource)` at clock
reading `now`: validation, token computation with the renewable/nuclear
bonus, an unconditional push into the pending pool, and provider
bookkeeping.  Returns the minted token total. -/
def Blockchain.tokenizeEnergy (providerAddress : String) (energyAmount : ℚ)
    (energySource : String) (now : Nat) (s : Blockchain D) :
    Except ValidationError (Blockchain D × ℚ) :=
  match validateAddress providerAddress "providerAddress" with
  | .error e => .error e
  | .ok _ =>
  match validateEnergyAmount energyAmount with
  | .error e => .error e
  | .ok _ =>
  match validateEnergySource energySource with
  | .error e => .error e
  | .ok _ =>
  let tokens := energyAmount * s.energyToTokenRate
  let bonus : ℚ :=
    if energySource = "renewable" then BLOCKCHAIN_CONFIG.RENEWABLE_ENERGY_BONUS
    else if energySource = "nuclear" then BLOCKCHAIN_CONFIG.NUCLEAR_ENERGY_BONUS
    else 1.0
  let totalTokens := tokens * bonus
  let transaction := mkTransaction none providerAddress totalTokens
    TRANSACTION_TYPES.ENERGY_TRADE
    { energyAmount := energyAmount
      pricePerKWh := s.energyToTokenRate
      energySource := energySource
      bonus := bonus }
    now
  let provider := (jsMapGet s.energyProviders providerAddress).getD
    ⟨0, 0, energySource⟩
  let provider := { provider with
    totalEnergy := provider.totalEnergy + energyAmount
    totalTokens := provider.totalTokens + totalTokens }
  .ok
    ({ s with
        pendingTransactions := s.pendingTransactions ++ [transaction]
        energyProviders := jsMapSet s.energyProviders providerAddress provider },
     totalTokens)

/-- `allocateCompute(fromAddress, toAddress, computeUnits, aiWorkloadType)`
at clock reading `now`: validates, builds and returns the transaction, and
touches no ledger state. -/
def Blockchain.allocateCompute (fromAddress toAddress : String)
    (computeUnits : ℚ) (aiWorkloadType : String) (now : Nat)
    (s : Blockchain D) :
    Except ValidationError (Blockchain D × Transaction) :=
  match validateAddress fromAddress "fromAddress" with
  | .error e => .error e
  | .ok _ =>
  match validateAddress toAddress "toAddress" with
  | .error e => .error e
  | .ok _ =>
  match validateComputeUnits computeUnits with
  | .error e => .error e
  | .ok _ =>
  let cost := (calculateComputeCost computeUnits).1
  let estimatedEnergy := (calculateComputeCost computeUnits).2
  let transaction := mkTransaction (some fromAddress) toAddress cost
    TRANSACTION_TYPES.COMPUTE_ALLOCATION
    { computeUnits := computeUnits
      aiWorkloadType := aiWorkloadType
      estimatedEnergy := estimatedEnergy }
    now
  .ok (s, transaction)

/-- `purchaseCarbonCredit(fromAddress, carbonAmount)` at clock reading
`now`: validates, builds and returns the transaction, and bumps the running
`totalCarbonOffset` statistic immediately. -/
def Blockchain.purchaseCarbonCredit (fromAddress : String) (carbonAmount : ℚ)
    (now : Nat) (s : Blockchain D) :
    Except ValidationError (Blockchain D × Transaction) :=
  match validateAddress fromAddress "fromAddress" with
  | .error e => .error e
  | .ok _ =>
  match validateCarbonAmount carbonAmount with
  | .error e => .error e
  | .ok _ =>
  let cost := calculateCarbonCreditCost carbonAmount
  let transaction := mkTransaction (some fromAddress) "CARBON_OFFSET_POOL" cost
    TRANSACTION_TYPES.CARBON_CREDIT
    { carbonAmount := carbonAmount
      creditType := "offset" }
    now
  .ok ({ s with totalCarbonOffset := s.totalCarbonOffset + carbonAmount },
       transaction)

open BLOCKCHAIN_CONFIG in
/-- The memory-pressure truncation at the top of `minePendingTransactions`:
when the pool exceeds `MAX_PENDING_TRANSACTIONS`, only its first
`MAX_PENDING_TRANSACTIONS` records are processed — the rest are discarded. -/
def minePool (s : Blockchain D) : List Transaction :=
  if s.pendingTransactions.length > MAX_PENDING_TRANSACTIONS then
    s.pendingTransactions.take MAX_PENDING_TRANSACTIONS
  else s.pendingTransactions

open TRANSACTION_TYPES in
/-- The `totalEnergy` accumulation loop in `minePendingTransactions`. -/
def mineTotalEnergy (energyData : EnergyInput)
    (pending : List Transaction) : ℚ :=
  pending.foldl
    (fun acc tx =>
      let acc := if tx.transactionType = ENERGY_TRADE then
          acc + jsOrQ tx.metadata.energyAmount 0
        else acc
      if tx.transactionType = COMPUTE_ALLOCATION then
        acc + jsOrQ tx.metadata.estimatedEnergy 0
      else acc)
    (jsOrQ energyData.totalEnergyConsumed 0)

open TRANSACTION_TYPES in
/-- The `totalCompute` accumulation loop in `minePendingTransactions`. -/
def mineTotalCompute (energyData : EnergyInput)
    (pending : List Transaction) : ℚ :=
  pending.foldl
    (fun acc tx =>
      if tx.transactionType = COMPUTE_ALLOCATION then
        acc + jsOrQ tx.metadata.computeUnits 0
      else acc)
    (jsOrQ energyData.aiComputeUnits 0)

open BLOCKCHAIN_CONFIG in
/-- The block `minePendingTransactions` constructs and seals. -/
def minedBlock (C : Crypto D) (energyData : EnergyInput)
    (nonce tBlock : Nat) (proofStr : String) (s : Blockchain D) : Block D :=
  let pending := minePool s
  let totalEnergy := mineTotalEnergy energyData pending
  let block := mkBlock C tBlock pending (s.getLatestBlock C).hash
    { totalEnergyConsumed := totalEnergy
      aiComputeUnits := mineTotalCompute energyData pending
      carbonFootprint := jsOrQ energyData.carbonFootprint
        (totalEnergy * CO2_PER_KWH)
      energySource := jsOrS energyData.energySource "mixed"
      efficiencyScore := jsOrQ energyData.efficiencyScore 50
      aiWorkloadType := jsOrS energyData.aiWorkloadType "general"
      computeProof := jsOrS energyData.computeProof proofStr }
  block.mineBlock C nonce

open BLOCKCHAIN_CONFIG in
/-- The post-mining block-time window: append the measured seal duration,
then drop the oldest sample beyond `2 × DIFFICULTY_ADJUSTMENT_INTERVAL`. -/
def mineHistory (tStart tEnd : Nat) (s : Blockchain D) : List Nat :=
  let hist := s.blockTimeHistory ++ [tEnd - tStart]
  if hist.length > DIFFICULTY_ADJUSTMENT_INTERVAL * 2 then hist.drop 1
  else hist

open BLOCKCHAIN_CONFIG TRANSACTION_TYPES in
/-- The state produced by a (validation-passing) run of
`minePendingTransactions`. -/
def minedState (C : Crypto D) (miningRewardAddress : String)
    (energyData : EnergyInput) (nonce tStart tBlock tReward tEnd : Nat)
    (proofStr : String) (s : Blockchain D) : Blockchain D :=
  let pending := minePool s
  let block := minedBlock C energyData nonce tBlock proofStr s
  let chain := s.chain ++ [block]
  let idx := indexBlock s.transactionIndex block (chain.length - 1)
  let baseReward := calculateMiningReward chain.length
  let energyBonus := block.energyBonus
  let totalReward := baseReward * energyBonus
  let rewardTx := mkTransaction none miningRewardAddress totalReward
    MINING_REWARD
    { baseReward := baseReward
      energyBonus := energyBonus
      totalReward := totalReward
      blockHeight := chain.length }
    tReward
  let hist := mineHistory tStart tEnd s
  Blockchain.invalidateCaches
    { s with
      chain := chain
      transactionIndex := idx
      pendingTransactions := [rewardTx]
      totalEnergyTokenized :=
        s.totalEnergyTokenized + mineTotalEnergy energyData pending
      totalCarbonOffset :=
        s.totalCarbonOffset + block.energyData.carbonFootprint
      totalAIComputeUnits :=
        s.totalAIComputeUnits + mineTotalCompute energyData pending
      blockTimeHistory := hist
      difficulty := adjustDifficulty s.difficulty chain.length hist }

/-- `minePendingTransactions(miningRewardAddress, energyData)`.  Oracle
parameters: `nonce` (result of the proof-of-work search), the successive
`Date.now()` readings `tStart` (entry), `tBlock` (block construction),
`tReward` (reward-record construction), `tEnd` (block-time measurement),
and `proofStr` (the randomly generated compute proof). -/
def Blockchain.minePendingTransactions (C : Crypto D)
    (miningRewardAddress : String) (energyData : EnergyInput)
    (nonce tStart tBlock tReward tEnd : Nat) (proofStr : String)
    (s : Blockchain D) : Except ValidationError (Blockchain D) :=
  match validateAddress miningRewardAddress "miningRewardAddress" with
  | .error e => .error e
  | .ok _ =>
    .ok (minedState C miningRewardAddress energyData nonce tStart tBlock
      tReward tEnd proofStr s)

/-- The scan inside `isChainValid()`: walk the chain from index 1, carrying
the predecessor, short-circuiting on (a) an invalid record, (b) a stored
hash differing from the recomputed one, (c) broken linkage. -/
def chainScan (C : Crypto D) [DecidableEq D] :
    Block D → List (Block D) → Except String Bool
  | _, [] => .ok true
  | previousBlock, currentBlock :: rest =>
    match currentBlock.hasValidTransactions C with
    | .error e => .error e
    | .ok v =>
      if ¬ v then .ok false
      else if currentBlock.hash ≠ currentBlock.calculateHash C then .ok false
      else if currentBlock.previousHash ≠ previousBlock.hash then .ok false
      else chainScan C currentBlock rest

/-- `isChainValid()` over a chain list (index 0 is genesis and unchecked). -/
def chainValid (C : Crypto D) [DecidableEq D] (chain : List (Block D)) :
    Except String Bool :=
  match chain with
  | [] => .ok true
  | genesis :: rest => chainScan C genesis rest

/-- `isChainValid()`. -/
def Blockchain.isChainValid (C : Crypto D) [DecidableEq D]
    (s : Blockchain D) : Except String Bool :=
  chainValid C s.chain

/-! ## Reachable ledger states

Every state the public API can produce from a fresh `new Blockchain()`,
with arbitrary oracle inputs.  (`getStatistics`, `getAllTransactionsForAddress`
and `getEnergyLeaderboard` touch neither the chain, the pool, the difficulty
nor the balance cache and are omitted.) -/

inductive Reachable (C : Crypto D) : Blockchain D → Prop where
  | init (t0 : Nat) : Reachable C (Blockchain.init C t0)
  | addTx {s : Blockchain D} (now : Nat) (tx : Transaction) :
      Reachable C s → Reachable C (s.addTransaction C now tx).2
  | getBalance {s : Blockchain D} (now : Nat) (address : String) :
      Reachable C s → Reachable C (s.getBalanceOfAddress now address).2
  | tokenize {s s' : Blockchain D} {v : ℚ} (providerAddress : String)
      (energyAmount : ℚ) (energySource : String) (now : Nat) :
      Reachable C s →
      s.tokenizeEnergy providerAddress energyAmount energySource now =
        .ok (s', v) →
      Reachable C s'
  | alloc {s s' : Blockchain D} {tx : Transaction}
      (fromAddress toAddress : String) (computeUnits : ℚ)
      (aiWorkloadType : String) (now : Nat) :
      Reachable C s →
      s.allocateCompute fromAddress toAddress computeUnits aiWorkloadType now =
        .ok (s', tx) →
      Reachable C s'
  | purchase {s s' : Blockchain D} {tx : Transaction}
      (fromAddress : String) (carbonAmount : ℚ) (now : Nat) :
      Reachable C s →
      s.purchaseCarbonCredit fromAddress carbonAmount now = .ok (s', tx) →
      Reachable C s'
  | mine {s s' : Blockchain D} (miningRewardAddress : String)
      (energyData : EnergyInput) (nonce tStart tBlock tReward tEnd : Nat)
      (proofStr : String) :
      Reachable C s →
      s.minePendingTransactions C miningRewardAddress energyData nonce tStart
        tBlock tReward tEnd proofStr = .ok s' →
      Reachable C s'

/-! ## A concrete, collision-free digest instantiation

For closed witnesses we instantiate the opaque digest type with formal
digest terms: the digest of a preimage is the preimage itself, wrapped in a
constructor.  This realizes an ideal (injective) hash, which is exactly the
collision-resistance idealization the design assumes of SHA-256. -/

inductive Digest where
  | dzero : Digest
  | dempty : Digest
  | blockNode (previousHash : Digest) (timestamp : Nat)
      (transactions : List Transaction) (energyData : EnergyData)
      (nonce : Nat) : Digest
  | txNode (core : TxCore) : Digest
  deriving DecidableEq, Repr

/-- The ideal cryptographic capability over `Digest`, with a signature
check that accepts (some honestly signed record exists for every content,
so this instantiates the external capability on such records). -/
def digestCrypto : Crypto Digest :=
  { dzero := .dzero
    dempty := .dempty
    blockHash := fun bc =>
      .blockNode bc.previousHash bc.timestamp bc.transactions bc.energyData
        bc.nonce
    txHash := fun core => .txNode core
    verify := fun _ _ _ => true }

lemma digestCrypto_blockHash_injective :
    Function.Injective digestCrypto.blockHash := by
  intro a b h
  cases a
  cases b
  simp only [digestCrypto, Digest.blockNode.injEq] at h
  simp only [BlockContents.mk.injEq]
  exact h

/-! ## Association-map lemmas -/

lemma jsMapGet_cons {β : Type} (e : String × β) (es : List (String × β))
    (k : String) :
    jsMapGet (e :: es) k = if e.1 = k then some e.2 else jsMapGet es k := by
  by_cases h : e.1 = k
  · simp [jsMapGet, List.find?_cons_of_pos, h]
  · simp [jsMapGet, List.find?_cons_of_neg, h]

lemma get_updateAll_self {β : Type} (es : List (String × β)) (k : String)
    (v : β) (hany : es.any (fun e => e.1 == k) = true) :
    jsMapGet (es.map (fun e => if e.1 == k then (k, v) else e)) k = some v := by
  induction es with
  | nil => simp at hany
  | cons e es ih =>
    by_cases h : e.1 = k
    · simp [jsMapGet_cons, h]
    · simp only [List.any_cons, Bool.or_eq_true, beq_iff_eq, h, false_or]
        at hany
      simp [jsMapGet_cons, h]
      simpa using ih hany

lemma get_updateAll_ne {β : Type} (es : List (String × β)) (k k' : String)
    (v : β) (h : k' ≠ k) :
    jsMapGet (es.map (fun e => if e.1 == k then (k, v) else e)) k' =
      jsMapGet es k' := by
  induction es with
  | nil => rfl
  | cons e es ih =>
    by_cases he : e.1 = k
    · have h1 : ¬ (k = k') := fun hh => h hh.symm
      have h2 : ¬ (e.1 = k') := he ▸ h1
      simp [jsMapGet_cons, he, h1, h2]
      simpa using ih
    · simp only [List.map_cons]
      by_cases hf : e.1 = k'
      · simp [jsMapGet_cons, he, hf, h]
      · simp [jsMapGet_cons, he, hf]
        simpa using ih

lemma get_append_single_self {β : Type} (es : List (String × β)) (k : String)
    (v : β) (hany : ¬ (es.any (fun e => e.1 == k) = true)) :
    jsMapGet (es ++ [(k, v)]) k = some v := by
  induction es with
  | nil => simp [jsMapGet_cons]
  | cons e es ih =>
    simp only [List.any_cons, Bool.or_eq_true, beq_iff_eq, not_or] at hany
    simp [jsMapGet_cons, hany.1]
    simpa using ih (by simpa using hany.2)

lemma get_append_single_ne {β : Type} (es : List (String × β)) (k k' : String)
    (v : β) (h : k' ≠ k) :
    jsMapGet (es ++ [(k, v)]) k' = jsMapGet es k' := by
  induction es with
  | nil =>
    have h1 : ¬ (k = k') := fun hh => h hh.symm
    simp [jsMapGet_cons, h1, jsMapGet]
  | cons e es ih =>
    by_cases hf : e.1 = k'
    · simp [jsMapGet_cons, hf]
    · simp [jsMapGet_cons, hf]
      simpa using ih

lemma jsMapGet_jsMapSet_self {β : Type} (es : List (String × β)) (k : String)
    (v : β) : jsMapGet (jsMapSet es k v) k = some v := by
  unfold jsMapSet
  by_cases hany : es.any (fun e => e.1 == k)
  · rw [if_pos hany]; exact get_updateAll_self es k v hany
  · rw [if_neg hany]; exact get_append_single_self es k v hany

lemma jsMapGet_jsMapSet_ne {β : Type} (es : List (String × β)) (k k' : String)
    (v : β) (h : k' ≠ k) :
    jsMapGet (jsMapSet es k v) k' = jsMapGet es k' := by
  unfold jsMapSet
  by_cases hany : es.any (fun e => e.1 == k)
  · rw [if_pos hany]; exact get_updateAll_ne es k k' v h
  · rw [if_neg hany]; exact get_append_single_ne es k k' v h

lemma jsMapGet_jsMapDelete_self {β : Type} (es : List (String × β))
    (k : String) : jsMapGet (jsMapDelete es k) k = none := by
  induction es with
  | nil => rfl
  | cons e es ih =>
    by_cases h : e.1 = k
    · simpa [jsMapDelete, h] using ih
    · simp only [jsMapDelete, List.filter_cons] at ih ⊢
      simp [h, jsMapGet_cons]
      simpa [jsMapDelete] using ih

lemma jsMapGet_jsMapDelete_ne {β : Type} (es : List (String × β))
    (k k' : String) (h : k' ≠ k) :
    jsMapGet (jsMapDelete es k) k' = jsMapGet es k' := by
  induction es with
  | nil => rfl
  | cons e es ih =>
    by_cases he : e.1 = k
    · have h2 : ¬ (e.1 = k') := he ▸ fun hh => h hh.symm
      simp only [jsMapDelete, List.filter_cons, he] at ih ⊢
      simp [jsMapGet_cons, h2]
      simpa [jsMapDelete] using ih
    · simp only [jsMapDelete, List.filter_cons] at ih ⊢
      by_cases hf : e.1 = k'
      · simp [he, jsMapGet_cons, hf, h]
      · simp [he, jsMapGet_cons, hf]
        simpa [jsMapDelete] using ih

lemma mem_jsMapSet {β : Type} (es : List (String × β)) (k : String) (v : β)
    (e : String × β) (he : e ∈ jsMapSet es k v) : e ∈ es ∨ e = (k, v) := by
  unfold jsMapSet at he
  by_cases hany : es.any (fun x => x.1 == k)
  · rw [if_pos hany] at he
    rw [List.mem_map] at he
    obtain ⟨e0, he0, heq⟩ := he
    by_cases h : e0.1 = k
    · rw [if_pos (by simpa using h)] at heq
      exact Or.inr heq.symm
    · rw [if_neg (by simpa using h)] at heq
      exact Or.inl (heq ▸ he0)
  · rw [if_neg hany] at he
    simpa using he

lemma mem_jsMapDelete {β : Type} (es : List (String × β)) (k : String)
    (e : String × β) (he : e ∈ jsMapDelete es k) : e ∈ es :=
  List.mem_of_mem_filter he

lemma mem_jsMapDeleteFirst {β : Type} (es : List (String × β))
    (e : String × β) (he : e ∈ jsMapDeleteFirst es) : e ∈ es := by
  cases es with
  | nil => cases he
  | cons f fs => exact mem_jsMapDelete _ _ _ he

/-- `"balance_" ++ a` determines `a`. -/
lemma string_append_left_cancel {p a b : String} (h : p ++ a = p ++ b) :
    a = b := by
  have h2 : p.data ++ a.data = p.data ++ b.data := congrArg String.data h
  exact String.ext (List.append_cancel_left h2)

/-! ## Cache membership lemmas -/

/-- An entry found in a JS map is an element of it with the looked-up key. -/
lemma jsMapGet_mem {β : Type} (es : List (String × β)) (k : String) (v : β)
    (h : jsMapGet es k = some v) : ∃ e ∈ es, e.1 = k ∧ e.2 = v := by
  unfold jsMapGet at h
  cases hf : es.find? (fun e => e.1 == k) with
  | none => rw [hf] at h; cases h
  | some e =>
    rw [hf] at h
    refine ⟨e, List.mem_of_find?_eq_some hf, ?_, ?_⟩
    · simpa using List.find?_some hf
    · simpa using h

/-- `Cache.get` introduces no entry that was not already present. -/
lemma mem_cache_get {α : Type} (c : Cache α) (now : Nat) (k : String)
    (e : String × CacheEntry α) (he : e ∈ (c.get now k).2.entries) :
    e ∈ c.entries := by
  unfold Cache.get at he
  cases hf : jsMapGet c.entries k with
  | none => rw [hf] at he; exact he
  | some item =>
    rw [hf] at he
    dsimp only at he
    by_cases hexp : now - item.timestamp > c.ttl
    · rw [if_pos hexp] at he
      exact mem_jsMapDelete _ _ _ he
    · rw [if_neg hexp] at he
      rcases mem_jsMapSet _ _ _ _ he with h1 | h2
      · exact mem_jsMapDelete _ _ _ h1
      · obtain ⟨e0, he0, hk, hv⟩ := jsMapGet_mem _ _ _ hf
        have : e = e0 := by rw [h2]; cases e0; cases hk; cases hv; rfl
        rw [this]; exact he0

/-- `Cache.set` adds at most the freshly inserted entry. -/
lemma mem_cache_set {α : Type} (c : Cache α) (now : Nat) (k : String) (v : α)
    (e : String × CacheEntry α) (he : e ∈ (c.set now k v).entries) :
    e ∈ c.entries ∨ e = (k, ⟨v, now⟩) := by
  unfold Cache.set at he
  dsimp only at he
  rcases mem_jsMapSet _ _ _ _ he with h1 | h2
  · by_cases hcap : c.entries.length ≥ c.maxSize
    · rw [if_pos hcap] at h1
      exact Or.inl (mem_jsMapDeleteFirst _ _ h1)
    · rw [if_neg hcap] at h1
      exact Or.inl h1
  · exact Or.inr h2

/-- A cache hit returns the value of a present entry under that key. -/
lemma cache_get_hit_value {α : Type} (c : Cache α) (now : Nat) (k : String)
    (v : α) (c' : Cache α) (h : c.get now k = (some v, c')) :
    ∃ e ∈ c.entries, e.1 = k ∧ e.2.value = v := by
  unfold Cache.get at h
  cases hf : jsMapGet c.entries k with
  | none => rw [hf] at h; cases h
  | some item =>
    rw [hf] at h
    dsimp only at h
    split_ifs at h with hexp
    · cases h
    · obtain ⟨e, he, hk, hv⟩ := jsMapGet_mem _ _ _ hf
      have h1 : some item.value = some v := congrArg Prod.fst h
      refine ⟨e, he, hk, ?_⟩
      rw [hv]
      injection h1

/-! ## Balance-cache consistency -/

/-- Every cached balance equals the full-scan derivation over the chain. -/
def CacheConsistent (chain : List (Block D)) (bc : Cache ℚ) : Prop :=
  ∀ e ∈ bc.entries, ∀ a : String, e.1 = "balance_" ++ a →
    e.2.value = scanBalance chain a

lemma cacheConsistent_nil (chain : List (Block D)) (bc : Cache ℚ)
    (h : bc.entries = []) : CacheConsistent chain bc := by
  intro e he
  rw [h] at he
  cases he

/-- Under a consistent cache, `getBalanceOfAddress` returns the scan. -/
lemma getBalanceOfAddress_value (s : Blockchain D) (now : Nat) (a : String)
    (h : CacheConsistent s.chain s.balanceCache) :
    (s.getBalanceOfAddress now a).1 = scanBalance s.chain a := by
  unfold Blockchain.getBalanceOfAddress
  simp only [BLOCKCHAIN_CONFIG.ENABLE_BALANCE_CACHE, if_true]
  rcases hg : Cache.get now s.balanceCache ("balance_" ++ a) with ⟨val, c⟩
  cases val with
  | none => rfl
  | some v =>
    obtain ⟨e, he, hk, hv⟩ := cache_get_hit_value _ _ _ _ _ hg
    exact (hv ▸ h e he a hk : v = scanBalance s.chain a)

/-- `getBalanceOfAddress` only touches the balance cache. -/
lemma getBalanceOfAddress_state (s : Blockchain D) (now : Nat) (a : String) :
    (s.getBalanceOfAddress now a).2 =
      { s with balanceCache := (s.getBalanceOfAddress now a).2.balanceCache } := by
  unfold Blockchain.getBalanceOfAddress
  simp only [BLOCKCHAIN_CONFIG.ENABLE_BALANCE_CACHE, if_true]
  rcases hg : Cache.get now s.balanceCache ("balance_" ++ a) with ⟨val, c⟩
  cases val <;> rfl

/-- `getBalanceOfAddress` preserves balance-cache consistency. -/
lemma getBalanceOfAddress_consistent (s : Blockchain D) (now : Nat)
    (a : String) (h : CacheConsistent s.chain s.balanceCache) :
    CacheConsistent s.chain (s.getBalanceOfAddress now a).2.balanceCache := by
  unfold Blockchain.getBalanceOfAddress
  simp only [BLOCKCHAIN_CONFIG.ENABLE_BALANCE_CACHE, if_true]
  rcases hg : Cache.get now s.balanceCache ("balance_" ++ a) with ⟨val, c⟩
  have hcsub : ∀ e ∈ c.entries, e ∈ s.balanceCache.entries := by
    intro e he
    exact mem_cache_get s.balanceCache now ("balance_" ++ a) e
      (by rw [hg]; exact he)
  cases val with
  | some v =>
    intro e he a' hk
    exact h e (hcsub e he) a' hk
  | none =>
    intro e he a' hk
    rcases mem_cache_set _ _ _ _ _ he with h1 | h2
    · exact h e (hcsub e h1) a' hk
    · rw [h2] at hk ⊢
      have : a = a' := string_append_left_cancel hk
      rw [← this]

/-! ## Operation shape lemmas -/

/-- The state after `addTransaction`: either untouched (an early throw), or
the post-balance-lookup state (a later throw), or that state with the
record appended (success). -/
lemma addTransaction_state (C : Crypto D) (s : Blockchain D) (now : Nat)
    (tx : Transaction) :
    (s.addTransaction C now tx).2 = s ∨
    (∃ sender, tx.fromAddress = some sender ∧
      ((s.addTransaction C now tx).2 =
        (s.getBalanceOfAddress now sender).2 ∨
       (s.addTransaction C now tx).2 =
        { (s.getBalanceOfAddress now sender).2 with
          pendingTransactions :=
            (s.getBalanceOfAddress now sender).2.pendingTransactions ++
              [tx] })) := by
  unfold Blockchain.addTransaction
  by_cases hcond : jsTruthy tx.fromAddress ∧ tx.toAddress ≠ ""
  · rw [if_neg (by simpa using hcond)]
    cases hfa : tx.fromAddress with
    | none => rw [hfa] at hcond; simp [jsTruthy] at hcond
    | some sender =>
      rcases hv : tx.isValid C with e | b
      · exact Or.inl rfl
      cases b
      · exact Or.inl rfl
      · refine Or.inr ⟨sender, rfl, ?_⟩
        dsimp only [Option.getD]
        by_cases hbal :
          (Blockchain.getBalanceOfAddress now s sender).1 < tx.amount
        · rw [if_pos hbal]
          exact Or.inl rfl
        · rw [if_neg hbal]
          by_cases hcap :
            (Blockchain.getBalanceOfAddress now s
              sender).2.pendingTransactions.length ≥
              BLOCKCHAIN_CONFIG.MAX_PENDING_TRANSACTIONS
          · rw [if_pos hcap]
            exact Or.inl rfl
          · rw [if_neg hcap]
            exact Or.inr rfl
  · rw [if_pos (by simpa using hcond)]
    exact Or.inl rfl

/-- A successful `tokenizeEnergy` only appends one pool record and updates
the provider map. -/
lemma tokenizeEnergy_ok_state {s s' : Blockchain D} {p src : String} {e v : ℚ}
    {now : Nat} (h : s.tokenizeEnergy p e src now = .ok (s', v)) :
    ∃ tx prov,
      s' = { s with pendingTransactions := s.pendingTransactions ++ [tx]
                    energyProviders := prov } := by
  unfold Blockchain.tokenizeEnergy at h
  rcases h1 : validateAddress p "providerAddress" with e1 | b1 <;> rw [h1] at h
  · cases h
  rcases h2 : validateEnergyAmount e with e2 | b2 <;> rw [h2] at h
  · cases h
  rcases h3 : validateEnergySource src with e3 | b3 <;> rw [h3] at h
  · cases h
  cases h
  exact ⟨_, _, rfl⟩

/-- `tokenizeEnergy` succeeds whenever its validators pass. -/
lemma tokenizeEnergy_succeeds (s : Blockchain D) (p : String) (e : ℚ)
    (src : String) (now : Nat)
    (h1 : validateAddress p "providerAddress" = .ok true)
    (h2 : validateEnergyAmount e = .ok true)
    (h3 : validateEnergySource src = .ok true) :
    ∃ s' v, s.tokenizeEnergy p e src now = .ok (s', v) ∧
      s'.pendingTransactions.length = s.pendingTransactions.length + 1 := by
  unfold Blockchain.tokenizeEnergy
  rw [h1, h2, h3]
  exact ⟨_, _, rfl, by simp⟩

/-- A successful `allocateCompute` leaves the state untouched. -/
lemma allocateCompute_ok_state {s s' : Blockchain D} {f t w : String}
    {u : ℚ} {now : Nat} {tx : Transaction}
    (h : s.allocateCompute f t u w now = .ok (s', tx)) : s' = s := by
  unfold Blockchain.allocateCompute at h
  rcases h1 : validateAddress f "fromAddress" with e1 | b1 <;> rw [h1] at h
  · cases h
  rcases h2 : validateAddress t "toAddress" with e2 | b2 <;> rw [h2] at h
  · cases h
  rcases h3 : validateComputeUnits u with e3 | b3 <;> rw [h3] at h
  · cases h
  cases h
  rfl

/-- A successful `purchaseCarbonCredit` only bumps `totalCarbonOffset`. -/
lemma purchaseCarbonCredit_ok_state {s s' : Blockchain D} {f : String}
    {ca : ℚ} {now : Nat} {tx : Transaction}
    (h : s.purchaseCarbonCredit f ca now = .ok (s', tx)) :
    s' = { s with totalCarbonOffset := s.totalCarbonOffset + ca } := by
  unfold Blockchain.purchaseCarbonCredit at h
  rcases h1 : validateAddress f "fromAddress" with e1 | b1 <;> rw [h1] at h
  · cases h
  rcases h2 : validateCarbonAmount ca with e2 | b2 <;> rw [h2] at h
  · cases h
  cases h
  rfl

/-- A successful `minePendingTransactions` produces exactly `minedState`. -/
lemma minePendingTransactions_ok_state {s s' : Blockchain D} {C : Crypto D}
    {addr : String} {energyData : EnergyInput}
    {nonce tStart tBlock tReward tEnd : Nat} {proofStr : String}
    (h : s.minePendingTransactions C addr energyData nonce tStart tBlock
      tReward tEnd proofStr = .ok s') :
    s' = minedState C addr energyData nonce tStart tBlock tReward tEnd
      proofStr s := by
  unfold Blockchain.minePendingTransactions at h
  rcases h1 : validateAddress addr "miningRewardAddress" with e1 | b1 <;>
    rw [h1] at h
  · cases h
  cases h
  rfl

lemma minedState_balanceCache {C : Crypto D} {addr : String}
    {energyData : EnergyInput} {nonce tStart tBlock tReward tEnd : Nat}
    {proofStr : String} {s : Blockchain D} :
    (minedState C addr energyData nonce tStart tBlock tReward tEnd proofStr
      s).balanceCache.entries = [] := rfl

lemma minedState_difficulty {C : Crypto D} {addr : String}
    {energyData : EnergyInput} {nonce tStart tBlock tReward tEnd : Nat}
    {proofStr : String} {s : Blockchain D} :
    (minedState C addr energyData nonce tStart tBlock tReward tEnd proofStr
      s).difficulty =
      adjustDifficulty s.difficulty (s.chain.length + 1)
        (mineHistory tStart tEnd s) := by
  unfold minedState Blockchain.invalidateCaches
  dsimp only
  simp

/-! ## Branch equations for `addTransaction` -/

/-- `addTransaction` with a missing (falsy) sender or recipient. -/
lemma addTransaction_eq_missing (C : Crypto D) (s : Blockchain D) (now : Nat)
    (tx : Transaction) (hcond : ¬ (jsTruthy tx.fromAddress ∧ tx.toAddress ≠ "")) :
    s.addTransaction C now tx = (some .missingAddress, s) := by
  unfold Blockchain.addTransaction
  rw [if_pos (by simpa using hcond)]

/-- `addTransaction` when the validity check throws. -/
lemma addTransaction_eq_throw (C : Crypto D) (s : Blockchain D) (now : Nat)
    (tx : Transaction) (msg : String)
    (hcond : jsTruthy tx.fromAddress ∧ tx.toAddress ≠ "")
    (hv : tx.isValid C = .error msg) :
    s.addTransaction C now tx = (some (.validityThrow msg), s) := by
  unfold Blockchain.addTransaction
  rw [if_neg (by simpa using hcond), hv]

/-- `addTransaction` when the validity check returns `false`. -/
lemma addTransaction_eq_invalid (C : Crypto D) (s : Blockchain D) (now : Nat)
    (tx : Transaction)
    (hcond : jsTruthy tx.fromAddress ∧ tx.toAddress ≠ "")
    (hv : tx.isValid C = .ok false) :
    s.addTransaction C now tx = (some .invalidTransaction, s) := by
  unfold Blockchain.addTransaction
  rw [if_neg (by simpa using hcond), hv]

/-- `addTransaction` when the record is valid: the remaining control flow
over the balance lookup, the funds check and the capacity check. -/
lemma addTransaction_eq_validTrue (C : Crypto D) (s : Blockchain D)
    (now : Nat) (tx : Transaction) (sender : String)
    (hfa : tx.fromAddress = some sender)
    (hcond : jsTruthy tx.fromAddress ∧ tx.toAddress ≠ "")
    (hv : tx.isValid C = .ok true) :
    s.addTransaction C now tx =
      (if (Blockchain.getBalanceOfAddress now s sender).1 < tx.amount then
        (some (.insufficientBalance tx.amount
          (Blockchain.getBalanceOfAddress now s sender).1),
         (Blockchain.getBalanceOfAddress now s sender).2)
       else if (Blockchain.getBalanceOfAddress now s
           sender).2.pendingTransactions.length ≥
           BLOCKCHAIN_CONFIG.MAX_PENDING_TRANSACTIONS then
        (some .poolFull, (Blockchain.getBalanceOfAddress now s sender).2)
       else
        (none,
         { (Blockchain.getBalanceOfAddress now s sender).2 with
           pendingTransactions :=
             (Blockchain.getBalanceOfAddress now s
               sender).2.pendingTransactions ++ [tx] })) := by
  unfold Blockchain.addTransaction
  rw [if_neg (by simpa using hcond), hv, hfa]
  dsimp only [Option.getD]

/-! ## The manual balance derivation (spec §3, "Participant Balance") -/

/-- Modelled from the spec's words, for comparison with the code's scan:
`Balance(address) = Σ amount of records where address is recipient − Σ
amount of records where address is sender, over every record in every
sealed Block`. -/
def specBalance (chain : List (Block D)) (address : String) : ℚ :=
  ((((chain.map (fun b => b.transactions)).flatten).filter
      (fun t => t.toAddress == address)).map (fun t => t.amount)).sum -
  ((((chain.map (fun b => b.transactions)).flatten).filter
      (fun t => t.fromAddress == some address)).map (fun t => t.amount)).sum

lemma foldl_balance_step (a : String) (l : List Transaction) (b : ℚ) :
    l.foldl
      (fun balance trans =>
        let balance := if trans.fromAddress = some a then
            balance - trans.amount
          else balance
        if trans.toAddress = a then balance + trans.amount else balance)
      b =
    b + (((l.filter (fun t => t.toAddress == a)).map (fun t => t.amount)).sum -
      ((l.filter (fun t => t.fromAddress == some a)).map
        (fun t => t.amount)).sum) := by
  induction l generalizing b with
  | nil => simp
  | cons tx rest ih =>
    simp only [List.foldl_cons, List.filter_cons]
    by_cases h1 : tx.fromAddress = some a <;>
      by_cases h2 : tx.toAddress = a <;>
      simp [h1, h2, ih] <;> ring

lemma scanBalance_foldl (chain : List (Block D)) (a : String) (b : ℚ) :
    chain.foldl
      (fun balance block =>
        block.transactions.foldl
          (fun balance trans =>
            let balance := if trans.fromAddress = some a then
                balance - trans.amount
              else balance
            if trans.toAddress = a then balance + trans.amount else balance)
          balance)
      b =
    ((chain.map (fun b => b.transactions)).flatten).foldl
      (fun balance trans =>
        let balance := if trans.fromAddress = some a then
            balance - trans.amount
          else balance
        if trans.toAddress = a then balance + trans.amount else balance)
      b := by
  induction chain generalizing b with
  | nil => rfl
  | cons blk rest ih =>
    rw [List.foldl_cons, List.map_cons, List.flatten_cons, List.foldl_append]
    exact ih _

/-- The code's balance scan equals the spec's manual derivation. -/
lemma scanBalance_eq_specBalance (chain : List (Block D)) (a : String) :
    scanBalance chain a = specBalance chain a := by
  unfold scanBalance specBalance
  rw [scanBalance_foldl, foldl_balance_step]
  ring

/-! ## Reachability invariants -/

/-- Invariant: in every reachable state the balance cache is consistent
with the chain. -/
lemma reachable_cacheConsistent {C : Crypto D} {s : Blockchain D}
    (h : Reachable C s) : CacheConsistent s.chain s.balanceCache := by
  induction h with
  | init t0 => exact cacheConsistent_nil _ _ rfl
  | @addTx s now tx hr ih =>
    rcases addTransaction_state C s now tx with hst | ⟨sender, hfa, hst | hst⟩
    · rw [hst]; exact ih
    · rw [hst, getBalanceOfAddress_state]
      exact getBalanceOfAddress_consistent s now sender ih
    · rw [hst]
      have := getBalanceOfAddress_state s now sender
      rw [this]
      exact getBalanceOfAddress_consistent s now sender ih
  | @getBalance s now a hr ih =>
    rw [getBalanceOfAddress_state]
    exact getBalanceOfAddress_consistent s now a ih
  | @tokenize s s' v p e src now hr hok ih =>
    obtain ⟨tx, prov, hst⟩ := tokenizeEnergy_ok_state hok
    rw [hst]
    exact ih
  | @alloc s s' tx f t u w now hr hok ih =>
    rw [allocateCompute_ok_state hok]
    exact ih
  | @purchase s s' tx f ca now hr hok ih =>
    rw [purchaseCarbonCredit_ok_state hok]
    exact ih
  | @mine s s' addr ed nonce t1 t2 t3 t4 p hr hok ih =>
    rw [minePendingTransactions_ok_state hok]
    exact cacheConsistent_nil _ _ minedState_balanceCache

/-! ## Concrete data for witnesses and counterexamples -/

/-- A fresh ledger (`new Blockchain()`) over the ideal digest. -/
def witnessChain : Blockchain Digest := Blockchain.init digestCrypto 0

/-- A transfer record carrying a sender but no signature. -/
def txNoSig : Transaction :=
  { fromAddress := some "SENDER_PUBLIC_KEY_1"
    toAddress := "RECIPIENT_ADDRESS_1"
    amount := 5
    timestamp := 0
    transactionType := TRANSACTION_TYPES.TRANSFER
    metadata := {}
    signature := none }

/-- A system-issued record (null sender). -/
def txSystem : Transaction :=
  { fromAddress := none
    toAddress := "RECIPIENT_ADDRESS_1"
    amount := 5
    timestamp := 0
    transactionType := TRANSACTION_TYPES.TRANSFER
    metadata := {}
    signature := none }

/-! ## Claim C7: energy-bonus composition, range, and maximum -/

open BLOCKCHAIN_CONFIG in
/-- C7: for every energy source, efficiency score and workload type the
resource bonus composes as ×1.5 renewable / else ×1.2 nuclear, then ×1.3
for efficiency > 80 / else ×1.1 for efficiency > 60, then ×1.2 for
inference; consequently it always lies in [1.0, 2.34], and the maximum
2.34 = 1.5 × 1.3 × 1.2 is attained exactly for a renewable source,
efficiency > 80, and an inference workload. -/
theorem claim_C7 (energySource : String) (efficiencyScore : ℚ)
    (aiWorkloadType : String) :
    calculateEnergyBonus energySource efficiencyScore aiWorkloadType =
      (if energySource = "renewable" then RENEWABLE_ENERGY_BONUS
        else if energySource = "nuclear" then NUCLEAR_ENERGY_BONUS else 1) *
      (if efficiencyScore > 80 then HIGH_EFFICIENCY_BONUS
        else if efficiencyScore > 60 then MEDIUM_EFFICIENCY_BONUS else 1) *
      (if aiWorkloadType = "inference" then INFERENCE_WORKLOAD_BONUS
        else 1) ∧
    1 ≤ calculateEnergyBonus energySource efficiencyScore aiWorkloadType ∧
    calculateEnergyBonus energySource efficiencyScore aiWorkloadType ≤ 2.34 ∧
    (calculateEnergyBonus energySource efficiencyScore aiWorkloadType = 2.34 ↔
      (energySource = "renewable" ∧ efficiencyScore > 80 ∧
        aiWorkloadType = "inference")) := by
  unfold calculateEnergyBonus
  unfold RENEWABLE_ENERGY_BONUS NUCLEAR_ENERGY_BONUS HIGH_EFFICIENCY_THRESHOLD
    HIGH_EFFICIENCY_BONUS MEDIUM_EFFICIENCY_THRESHOLD MEDIUM_EFFICIENCY_BONUS
    INFERENCE_WORKLOAD_BONUS
  dsimp only
  split_ifs <;> norm_num <;> tauto

/-! ## Claim C6: reward schedule and the post-mining pool -/

/-- C6: `calculateMiningReward` realizes
`max(BASE_REWARD / 2^floor(height / HALVING_INTERVAL), MIN_REWARD)`: it is
(by construction) pure and total, monotonically non-increasing, with
`reward 0 = BASE`, `reward HALVING = BASE/2`, `reward (2·HALVING) = BASE/4`;
and a successful `minePendingTransactions` leaves the pool holding exactly
one system-issued mining-reward record whose amount is
`reward (chain length after append) × sealed block's energy bonus`. -/
theorem claim_C6 {D : Type} [DecidableEq D] (C : Crypto D) (s : Blockchain D)
    (miningRewardAddress : String) (energyData : EnergyInput)
    (nonce tStart tBlock tReward tEnd : Nat) (proofStr : String)
    (h1 h2 : Nat) (h12 : h1 ≤ h2)
    (haddr :
      validateAddress miningRewardAddress "miningRewardAddress" = .ok true) :
    calculateMiningReward 0 = BLOCKCHAIN_CONFIG.BASE_MINING_REWARD ∧
    calculateMiningReward BLOCKCHAIN_CONFIG.HALVING_INTERVAL =
      BLOCKCHAIN_CONFIG.BASE_MINING_REWARD / 2 ∧
    calculateMiningReward (2 * BLOCKCHAIN_CONFIG.HALVING_INTERVAL) =
      BLOCKCHAIN_CONFIG.BASE_MINING_REWARD / 4 ∧
    calculateMiningReward h2 ≤ calculateMiningReward h1 ∧
    (∃ s' block,
      s.minePendingTransactions C miningRewardAddress energyData nonce tStart
        tBlock tReward tEnd proofStr = .ok s' ∧
      s'.chain = s.chain ++ [block] ∧
      s'.pendingTransactions =
        [mkTransaction none miningRewardAddress
          (calculateMiningReward (s.chain.length + 1) * block.energyBonus)
          TRANSACTION_TYPES.MINING_REWARD
          { baseReward := calculateMiningReward (s.chain.length + 1)
            energyBonus := block.energyBonus
            totalReward :=
              calculateMiningReward (s.chain.length + 1) * block.energyBonus
            blockHeight := s.chain.length + 1 }
          tReward]) := by
  refine ⟨?_, ?_, ?_, ?_, ?_⟩
  · norm_num [calculateMiningReward, BLOCKCHAIN_CONFIG.BASE_MINING_REWARD,
      BLOCKCHAIN_CONFIG.HALVING_INTERVAL]
  · norm_num [calculateMiningReward, BLOCKCHAIN_CONFIG.BASE_MINING_REWARD,
      BLOCKCHAIN_CONFIG.HALVING_INTERVAL]
  · norm_num [calculateMiningReward, BLOCKCHAIN_CONFIG.BASE_MINING_REWARD,
      BLOCKCHAIN_CONFIG.HALVING_INTERVAL]
  · unfold calculateMiningReward
    dsimp only
    apply max_le_max _ le_rfl
    apply div_le_div_of_nonneg_left
      (by norm_num [BLOCKCHAIN_CONFIG.BASE_MINING_REWARD]) (by positivity)
    exact pow_le_pow_right₀ (by norm_num) (Nat.div_le_div_right h12)
  · unfold Blockchain.minePendingTransactions
    rw [haddr]
    refine ⟨_, minedBlock C energyData nonce tBlock proofStr s, rfl, ?_, ?_⟩
    · simp [minedState, Blockchain.invalidateCaches]
    · simp [minedState, Blockchain.invalidateCaches, List.length_append]

/-- C6 witness: the theorem applied at the ideal digest, a fresh ledger,
a concrete miner address, and heights 0 ≤ 210000. -/
theorem claim_C6_witness :
    (0 : Nat) ≤ 210000 ∧
    validateAddress "MINER_ADDRESS_01" "miningRewardAddress" =
      .ok true ∧
    (calculateMiningReward 0 = BLOCKCHAIN_CONFIG.BASE_MINING_REWARD ∧
      calculateMiningReward BLOCKCHAIN_CONFIG.HALVING_INTERVAL =
        BLOCKCHAIN_CONFIG.BASE_MINING_REWARD / 2 ∧
      calculateMiningReward (2 * BLOCKCHAIN_CONFIG.HALVING_INTERVAL) =
        BLOCKCHAIN_CONFIG.BASE_MINING_REWARD / 4 ∧
      calculateMiningReward 210000 ≤ calculateMiningReward 0 ∧
      (∃ s' block,
        witnessChain.minePendingTransactions digestCrypto "MINER_ADDRESS_01"
          {} 7 100 101 102 103 "PROOF_X" = .ok s' ∧
        s'.chain = witnessChain.chain ++ [block] ∧
        s'.pendingTransactions =
          [mkTransaction none "MINER_ADDRESS_01"
            (calculateMiningReward (witnessChain.chain.length + 1) *
              block.energyBonus)
            TRANSACTION_TYPES.MINING_REWARD
            { baseReward := calculateMiningReward (witnessChain.chain.length + 1)
              energyBonus := block.energyBonus
              totalReward :=
                calculateMiningReward (witnessChain.chain.length + 1) *
                  block.energyBonus
              blockHeight := witnessChain.chain.length + 1 }
            102])) :=
  ⟨by norm_num, by rfl,
    claim_C6 digestCrypto witnessChain "MINER_ADDRESS_01" {} 7 100 101 102 103
      "PROOF_X" 0 210000 (by norm_num) (by rfl)⟩

/-! ## Claim C5: record validity -/

/-- C5 counterexample: the claim says a sender-carrying record with an
absent signature yields `false` as "a boolean result, not an exception";
the code instead throws 'No signature in this transaction'. -/
theorem claim_C5_counterexample :
    txNoSig.isValid digestCrypto = .error "No signature in this transaction" ∧
    txNoSig.isValid digestCrypto ≠ .ok false := by
  refine ⟨rfl, ?_⟩
  intro h
  rw [show txNoSig.isValid digestCrypto =
    .error "No signature in this transaction" from rfl] at h
  cases h

/-- C5 (amended): a record with the system sentinel (null sender) is always
valid; a record with a sender *throws* 'No signature in this transaction'
when the signature is absent or empty, and otherwise returns (as a boolean,
without raising) the verdict of verifying the signature against the sender
identifier over the record's canonical digest. -/
theorem claim_C5 {D : Type} (C : Crypto D) (tx : Transaction) :
    (tx.fromAddress = none → tx.isValid C = .ok true) ∧
    (∀ sender, tx.fromAddress = some sender →
      ((tx.signature = none ∨ tx.signature = some "") →
        tx.isValid C = .error "No signature in this transaction") ∧
      (∀ sig, tx.signature = some sig → sig ≠ "" →
        tx.isValid C = .ok (C.verify sender (tx.calculateHash C) sig))) := by
  constructor
  · intro h
    simp [Transaction.isValid, h]
  · intro sender hs
    constructor
    · intro hsig
      rcases hsig with hn | he
      · simp [Transaction.isValid, hs, hn]
      · simp [Transaction.isValid, hs, he]
    · intro sig hsig hne
      simp [Transaction.isValid, hs, hsig, hne]

/-- C5 witness: the amended theorem applied to a concrete system record
and to the concrete unsigned sender record. -/
theorem claim_C5_witness :
    txSystem.isValid digestCrypto = .ok true ∧
    txNoSig.isValid digestCrypto =
      .error "No signature in this transaction" :=
  ⟨(claim_C5 digestCrypto txSystem).1 rfl,
   ((claim_C5 digestCrypto txNoSig).2 "SENDER_PUBLIC_KEY_1" rfl).1
     (Or.inl rfl)⟩

/-! ## Claim C9: cache get/set/expiry semantics -/

/-- Two entries inserted at times 0 and 1 into a cache of capacity 2. -/
def cacheA : Cache ℚ :=
  Cache.set 1 (Cache.set 0 (Cache.init ℚ 2 5000) "key_one" 1) "key_two" 2

/-- `cacheA` after a hit on `key_one` at time 2 (the hit moves `key_one`
behind `key_two` in the map's order) and a capacity-forced insertion of
`key_three` at time 3. -/
def cacheC : Cache ℚ :=
  Cache.set 3 (Cache.get 2 cacheA "key_one").2 "key_three" 3

/-- A single entry inserted at time 0, read back exactly `ttl` later. -/
def cacheBound : Cache ℚ :=
  Cache.set 0 (Cache.init ℚ 2 5000) "k_bound_1" 7

/-- C9 counterexample.  First part: after `key_one` (inserted at 0, the
oldest-inserted entry) is accessed, a capacity eviction removes `key_two`
(inserted at 1) and keeps `key_one` — so `set` does *not* evict the
oldest-inserted entry; eviction follows access recency.  Second part: a
`get` exactly `ttl` after insertion still returns the value, so the hit
condition is `now − insertedAt ≤ ttl`, not the claimed strict `<`. -/
theorem claim_C9_counterexample :
    jsMapGet cacheC.entries "key_one" = some ⟨1, 0⟩ ∧
    jsMapGet cacheC.entries "key_two" = none ∧
    (Cache.get 5000 cacheBound "k_bound_1").1 = some 7 := by
  refine ⟨rfl, rfl, rfl⟩

/-- C9 (amended): `get(key)` returns the stored value iff an entry is
present and `now − insertion timestamp ≤ ttl` (the boundary case is a hit);
otherwise it treats the key as absent and evicts the stale entry.  A hit
re-inserts the entry with its *original* timestamp, so expiry is determined
solely by the insertion timestamp regardless of intervening accesses — but
a hit does move the entry to the back of the map's order, so `set` at
capacity evicts the entry at the *front of the access-recency order* (the
least recently used), not necessarily the oldest-inserted one, and then
inserts the new entry. -/
theorem claim_C9 {α : Type} (c : Cache α) (key : String) (now : Nat)
    (v : α) :
    ((jsMapGet c.entries key = none → c.get now key = (none, c)) ∧
     (∀ item, jsMapGet c.entries key = some item →
       (now - item.timestamp > c.ttl →
         (c.get now key).1 = none ∧
         (c.get now key).2.entries = jsMapDelete c.entries key) ∧
       (now - item.timestamp ≤ c.ttl →
         (c.get now key).1 = some item.value ∧
         jsMapGet (c.get now key).2.entries key = some item))) ∧
    ((c.entries.length ≥ c.maxSize →
       ∀ e0 es0, c.entries = e0 :: es0 →
         (key ≠ e0.1 →
           jsMapGet (c.set now key v).entries e0.1 = none) ∧
         (∀ k', k' ≠ key → k' ≠ e0.1 →
           jsMapGet (c.set now key v).entries k' =
             jsMapGet c.entries k')) ∧
     (c.entries.length < c.maxSize →
       ∀ k', k' ≠ key →
         jsMapGet (c.set now key v).entries k' = jsMapGet c.entries k') ∧
     jsMapGet (c.set now key v).entries key = some ⟨v, now⟩) := by
  constructor
  · constructor
    · intro h
      unfold Cache.get
      rw [h]
    · intro item hitem
      constructor
      · intro hexp
        unfold Cache.get
        rw [hitem]
        dsimp only
        rw [if_pos hexp]
        exact ⟨rfl, rfl⟩
      · intro hfresh
        unfold Cache.get
        rw [hitem]
        dsimp only
        rw [if_neg (by omega)]
        exact ⟨rfl, jsMapGet_jsMapSet_self _ _ _⟩
  · refine ⟨?_, ?_, ?_⟩
    · intro hcap e0 es0 hes
      constructor
      · intro hne
        unfold Cache.set
        rw [if_pos hcap, hes]
        show jsMapGet (jsMapSet (jsMapDeleteFirst (e0 :: es0)) key _) e0.1 =
          none
        rw [jsMapGet_jsMapSet_ne _ _ _ _ (fun hh => hne hh.symm)]
        exact jsMapGet_jsMapDelete_self _ _
      · intro k' hk1 hk2
        unfold Cache.set
        rw [if_pos hcap, hes]
        show jsMapGet (jsMapSet (jsMapDeleteFirst (e0 :: es0)) key _) k' = _
        rw [jsMapGet_jsMapSet_ne _ _ _ _ hk1]
        rw [show jsMapDeleteFirst (e0 :: es0) = jsMapDelete (e0 :: es0) e0.1
          from rfl]
        rw [jsMapGet_jsMapDelete_ne _ _ _ hk2]
    · intro hlt k' hk
      unfold Cache.set
      rw [if_neg (by omega)]
      exact jsMapGet_jsMapSet_ne _ _ _ _ hk
    · unfold Cache.set
      split_ifs <;> exact jsMapGet_jsMapSet_self _ _ _

/-- C9 witness: the amended theorem applied to the concrete caches. -/
theorem claim_C9_witness :
    ((Cache.get 2 cacheA "key_one").1 = some 1 ∧
      jsMapGet (Cache.get 2 cacheA "key_one").2.entries "key_one" =
        some ⟨1, 0⟩) ∧
    jsMapGet (Cache.set 3 (Cache.get 2 cacheA "key_one").2 "key_three"
      (3 : ℚ)).entries "key_two" = none :=
  ⟨((claim_C9 cacheA "key_one" 2 (0 : ℚ)).1.2 ⟨1, 0⟩ (by decide)).2
     (by decide),
   (((claim_C9 (Cache.get 2 cacheA "key_one").2 "key_three" 3 (3 : ℚ)).2.1
       (by decide) ("key_two", ⟨2, 1⟩) [("key_one", ⟨1, 0⟩)] (by decide)).1
     (by decide))⟩

/-! ## Claim C10: allocateCompute / purchaseCarbonCredit frame effects -/

/-- C10: `allocateCompute` builds and returns its transaction without
touching any ledger state at all; `purchaseCarbonCredit` builds and
returns its transaction, appending it neither to the pool nor to the
chain, and its only state effect is bumping `totalCarbonOffset` by the
carbon amount at call time — before the returned transaction is ever
submitted or sealed. -/
theorem claim_C10 {D : Type} (s : Blockchain D)
    (fromAddress toAddress : String) (computeUnits : ℚ)
    (aiWorkloadType : String) (carbonAmount : ℚ) (now1 now2 : Nat) :
    (∀ s' tx,
      s.allocateCompute fromAddress toAddress computeUnits aiWorkloadType
        now1 = .ok (s', tx) →
      s' = s ∧
      tx.transactionType = TRANSACTION_TYPES.COMPUTE_ALLOCATION ∧
      tx.amount = (calculateComputeCost computeUnits).1 ∧
      tx.fromAddress = some fromAddress ∧ tx.toAddress = toAddress) ∧
    (∀ s' tx,
      s.purchaseCarbonCredit fromAddress carbonAmount now2 = .ok (s', tx) →
      s' = { s with totalCarbonOffset := s.totalCarbonOffset + carbonAmount } ∧
      s'.chain = s.chain ∧
      s'.pendingTransactions = s.pendingTransactions ∧
      s'.difficulty = s.difficulty ∧
      s'.balanceCache = s.balanceCache ∧
      s'.statsCache = s.statsCache ∧
      s'.transactionIndex = s.transactionIndex ∧
      s'.totalCarbonOffset = s.totalCarbonOffset + carbonAmount ∧
      tx.transactionType = TRANSACTION_TYPES.CARBON_CREDIT ∧
      tx.amount = calculateCarbonCreditCost carbonAmount ∧
      tx.toAddress = "CARBON_OFFSET_POOL") := by
  constructor
  · intro s' tx h
    unfold Blockchain.allocateCompute at h
    rcases h1 : validateAddress fromAddress "fromAddress" with e | b <;>
      rw [h1] at h
    · cases h
    rcases h2 : validateAddress toAddress "toAddress" with e | b <;>
      rw [h2] at h
    · cases h
    rcases h3 : validateComputeUnits computeUnits with e | b <;>
      rw [h3] at h
    · cases h
    cases h
    exact ⟨rfl, rfl, rfl, rfl, rfl⟩
  · intro s' tx h
    unfold Blockchain.purchaseCarbonCredit at h
    rcases h1 : validateAddress fromAddress "fromAddress" with e | b <;>
      rw [h1] at h
    · cases h
    rcases h2 : validateCarbonAmount carbonAmount with e | b <;>
      rw [h2] at h
    · cases h
    cases h
    exact ⟨rfl, rfl, rfl, rfl, rfl, rfl, rfl, rfl, rfl, rfl, rfl⟩

/-- C10 witness: the theorem applied at a fresh ledger with concrete valid
inputs; both operations succeed and the stated frame conditions hold. -/
theorem claim_C10_witness :
    (∀ s' tx,
      witnessChain.allocateCompute "FROM_ADDRESS_1" "TO_ADDRESS_01" 5
        "general" 11 = .ok (s', tx) →
      s' = witnessChain ∧
      tx.transactionType = TRANSACTION_TYPES.COMPUTE_ALLOCATION ∧
      tx.amount = (calculateComputeCost 5).1 ∧
      tx.fromAddress = some "FROM_ADDRESS_1" ∧
      tx.toAddress = "TO_ADDRESS_01") ∧
    (∀ s' tx,
      witnessChain.purchaseCarbonCredit "FROM_ADDRESS_1" 5 12 =
        .ok (s', tx) →
      s' = { witnessChain with
        totalCarbonOffset := witnessChain.totalCarbonOffset + 5 } ∧
      s'.chain = witnessChain.chain ∧
      s'.pendingTransactions = witnessChain.pendingTransactions ∧
      s'.difficulty = witnessChain.difficulty ∧
      s'.balanceCache = witnessChain.balanceCache ∧
      s'.statsCache = witnessChain.statsCache ∧
      s'.transactionIndex = witnessChain.transactionIndex ∧
      s'.totalCarbonOffset = witnessChain.totalCarbonOffset + 5 ∧
      tx.transactionType = TRANSACTION_TYPES.CARBON_CREDIT ∧
      tx.amount = calculateCarbonCreditCost 5 ∧
      tx.toAddress = "CARBON_OFFSET_POOL") :=
  claim_C10 witnessChain "FROM_ADDRESS_1" "TO_ADDRESS_01" 5
    "general" 5 11 12

/-! ## Claim C1: balance derivation, cold and warm cache -/

/-- C1: in every reachable ledger state, `getBalanceOfAddress` returns the
full-scan value — the sum of received amounts minus the sum of sent amounts
over every transaction of every sealed block (the manual spec derivation
`specBalance`) — whether the cache is cold or warm; and a repeated call
with no intervening mutation returns the identical value. -/
theorem claim_C1 {D : Type} (C : Crypto D) (s : Blockchain D)
    (h : Reachable C s) (now now2 : Nat) (address : String) :
    (s.getBalanceOfAddress now address).1 = scanBalance s.chain address ∧
    (s.getBalanceOfAddress now address).1 = specBalance s.chain address ∧
    ((s.getBalanceOfAddress now address).2.getBalanceOfAddress now2
        address).1 = (s.getBalanceOfAddress now address).1 := by
  have hcc := reachable_cacheConsistent h
  have h1 := getBalanceOfAddress_value s now address hcc
  refine ⟨h1, by rw [h1, scanBalance_eq_specBalance], ?_⟩
  have h2 : Reachable C (s.getBalanceOfAddress now address).2 :=
    Reachable.getBalance now address h
  have hcc2 := reachable_cacheConsistent h2
  rw [getBalanceOfAddress_value _ now2 address hcc2, h1,
    getBalanceOfAddress_state s now address]

/-- C1 witness: the theorem applied at a fresh reachable ledger. -/
theorem claim_C1_witness :
    (witnessChain.getBalanceOfAddress 3 "QUERY_ADDRESS_9").1 =
      scanBalance witnessChain.chain "QUERY_ADDRESS_9" ∧
    (witnessChain.getBalanceOfAddress 3 "QUERY_ADDRESS_9").1 =
      specBalance witnessChain.chain "QUERY_ADDRESS_9" ∧
    ((witnessChain.getBalanceOfAddress 3
        "QUERY_ADDRESS_9").2.getBalanceOfAddress 4 "QUERY_ADDRESS_9").1 =
      (witnessChain.getBalanceOfAddress 3 "QUERY_ADDRESS_9").1 :=
  claim_C1 digestCrypto witnessChain (Reachable.init 0) 3 4 "QUERY_ADDRESS_9"

/-! ## Claim C4: addTransaction rejection and acceptance -/

/-- A signed zero-amount transfer: `amount = 0` violates the Validation
Layer's `MIN_TRANSACTION_AMOUNT` bound, yet `addTransaction` never invokes
`validateAmount`. -/
def txZero : Transaction :=
  { fromAddress := some "SENDER_PUBLIC_KEY_1"
    toAddress := "RECIPIENT_ADDRESS_1"
    amount := 0
    timestamp := 0
    transactionType := TRANSACTION_TYPES.TRANSFER
    metadata := {}
    signature := some "SIGNATURE_HEX_1" }

/-- C4 counterexample: a signed transaction whose amount (0) violates the
Validation Layer bound `MIN_TRANSACTION_AMOUNT` — `validateAmount` rejects
it — is nevertheless accepted by `addTransaction` and appended to the
pool: the code never applies the numeric bounds on this path. -/
theorem claim_C4_counterexample :
    txZero.amount < VALIDATION_LIMITS.MIN_TRANSACTION_AMOUNT ∧
    validateAmount txZero.amount "amount" = .error ⟨"amount"⟩ ∧
    (witnessChain.addTransaction digestCrypto 5 txZero).1 = none ∧
    (witnessChain.addTransaction digestCrypto 5
      txZero).2.pendingTransactions = [txZero] := by
  have hlt : txZero.amount < VALIDATION_LIMITS.MIN_TRANSACTION_AMOUNT := by
    norm_num [txZero, VALIDATION_LIMITS.MIN_TRANSACTION_AMOUNT]
  have hcc : CacheConsistent witnessChain.chain witnessChain.balanceCache :=
    reachable_cacheConsistent (Reachable.init 0)
  have hbal :
      ¬ (Blockchain.getBalanceOfAddress 5 witnessChain
        "SENDER_PUBLIC_KEY_1").1 < txZero.amount := by
    rw [getBalanceOfAddress_value witnessChain 5 "SENDER_PUBLIC_KEY_1" hcc]
    rw [show scanBalance witnessChain.chain "SENDER_PUBLIC_KEY_1" = 0
      from rfl]
    norm_num [txZero]
  have hcap :
      ¬ (Blockchain.getBalanceOfAddress 5 witnessChain
        "SENDER_PUBLIC_KEY_1").2.pendingTransactions.length ≥
        BLOCKCHAIN_CONFIG.MAX_PENDING_TRANSACTIONS := by
    rw [getBalanceOfAddress_state]
    decide
  have heq := addTransaction_eq_validTrue digestCrypto witnessChain 5 txZero
    "SENDER_PUBLIC_KEY_1" rfl (by decide) rfl
  rw [heq, if_neg hbal, if_neg hcap]
  refine ⟨hlt, ?_, rfl, ?_⟩
  · unfold validateAmount
    rw [if_pos hlt]
  · rw [getBalanceOfAddress_state]
    rfl

/-- C4 (amended): `addTransaction(record)` rejects with no change to the
chain or the pool whenever an address is missing, whenever the record
fails the record-validity check (a thrown 'No signature' error or a false
verdict), whenever the sender's derived balance is below the amount (the
error carrying the required and available amounts), or whenever the pool
is at capacity; otherwise it appends the record to the pool.  It performs
*no* Validation-Layer numeric-bounds check (see the counterexample). -/
theorem claim_C4 {D : Type} (C : Crypto D) (s : Blockchain D)
    (h : Reachable C s) (now : Nat) (tx : Transaction) :
    ((s.addTransaction C now tx).1.isSome →
      (s.addTransaction C now tx).2.chain = s.chain ∧
      (s.addTransaction C now tx).2.pendingTransactions =
        s.pendingTransactions) ∧
    ((s.addTransaction C now tx).1 = none →
      (s.addTransaction C now tx).2.chain = s.chain ∧
      (s.addTransaction C now tx).2.pendingTransactions =
        s.pendingTransactions ++ [tx]) ∧
    (¬ (jsTruthy tx.fromAddress ∧ tx.toAddress ≠ "") →
      s.addTransaction C now tx = (some .missingAddress, s)) ∧
    (∀ sender, tx.fromAddress = some sender →
      (jsTruthy tx.fromAddress ∧ tx.toAddress ≠ "") →
      (∀ msg, tx.isValid C = .error msg →
        s.addTransaction C now tx = (some (.validityThrow msg), s)) ∧
      (tx.isValid C = .ok false →
        s.addTransaction C now tx = (some .invalidTransaction, s)) ∧
      (tx.isValid C = .ok true →
        (scanBalance s.chain sender < tx.amount →
          (s.addTransaction C now tx).1 =
            some (.insufficientBalance tx.amount
              (scanBalance s.chain sender))) ∧
        (tx.amount ≤ scanBalance s.chain sender →
          (s.pendingTransactions.length ≥
              BLOCKCHAIN_CONFIG.MAX_PENDING_TRANSACTIONS →
            (s.addTransaction C now tx).1 = some .poolFull) ∧
          (s.pendingTransactions.length <
              BLOCKCHAIN_CONFIG.MAX_PENDING_TRANSACTIONS →
            (s.addTransaction C now tx).1 = none)))) := by
  have hcc := reachable_cacheConsistent h
  by_cases hcond : jsTruthy tx.fromAddress ∧ tx.toAddress ≠ ""
  · cases hfa : tx.fromAddress with
    | none =>
      exfalso
      rw [hfa] at hcond
      simp [jsTruthy] at hcond
    | some sender =>
      have hcond2 : jsTruthy (some sender) = true ∧ tx.toAddress ≠ "" := by
        refine ⟨?_, hcond.2⟩
        rw [← hfa]
        exact hcond.1
      have hval := getBalanceOfAddress_value s now sender hcc
      have hstate := getBalanceOfAddress_state s now sender
      have hpool : (Blockchain.getBalanceOfAddress now s
          sender).2.pendingTransactions = s.pendingTransactions := by
        rw [hstate]
      have hchain : (Blockchain.getBalanceOfAddress now s sender).2.chain =
          s.chain := by
        rw [hstate]
      rcases hv : tx.isValid C with msg | b
      · rw [addTransaction_eq_throw C s now tx msg hcond hv]
        refine ⟨?_, ?_, ?_, ?_⟩
        · intro _
          exact ⟨rfl, rfl⟩
        · intro hn
          exact Option.noConfusion hn
        · intro hc
          exact absurd hcond2 hc
        · intro sender' hfa' _
          refine ⟨?_, ?_, ?_⟩
          · intro msg' hv'
            injection hv' with hmsg
            rw [hmsg]
          · intro hv'
            exact Except.noConfusion hv'
          · intro hv'
            exact Except.noConfusion hv'
      · cases b
        · rw [addTransaction_eq_invalid C s now tx hcond hv]
          refine ⟨?_, ?_, ?_, ?_⟩
          · intro _
            exact ⟨rfl, rfl⟩
          · intro hn
            exact Option.noConfusion hn
          · intro hc
            exact absurd hcond2 hc
          · intro sender' hfa' _
            refine ⟨?_, ?_, ?_⟩
            · intro msg' hv'
              exact Except.noConfusion hv'
            · intro _
              rfl
            · intro hv'
              injection hv' with hb
              exact Bool.noConfusion hb
        · have heq := addTransaction_eq_validTrue C s now tx sender hfa
            hcond hv
          by_cases hbal : (Blockchain.getBalanceOfAddress now s sender).1 <
              tx.amount
          · rw [heq, if_pos hbal]
            refine ⟨?_, ?_, ?_, ?_⟩
            · intro _
              exact ⟨hchain, hpool⟩
            · intro hn
              exact Option.noConfusion hn
            · intro hc
              exact absurd hcond2 hc
            · intro sender' hfa' _
              injection hfa' with hss
              rw [← hss]
              refine ⟨?_, ?_, ?_⟩
              · intro msg' hv'
                exact Except.noConfusion hv'
              · intro hv'
                injection hv' with hb
                exact Bool.noConfusion hb
              · intro _
                rw [hval] at hbal
                refine ⟨fun _ => by rw [hval], fun hge => ?_⟩
                exact absurd hbal (not_lt.mpr hge)
          · rw [heq, if_neg hbal]
            by_cases hcap : (Blockchain.getBalanceOfAddress now s
                sender).2.pendingTransactions.length ≥
                BLOCKCHAIN_CONFIG.MAX_PENDING_TRANSACTIONS
            · rw [if_pos hcap]
              refine ⟨?_, ?_, ?_, ?_⟩
              · intro _
                exact ⟨hchain, hpool⟩
              · intro hn
                exact Option.noConfusion hn
              · intro hc
                exact absurd hcond2 hc
              · intro sender' hfa' _
                injection hfa' with hss
                rw [← hss]
                refine ⟨?_, ?_, ?_⟩
                · intro msg' hv'
                  exact Except.noConfusion hv'
                · intro hv'
                  injection hv' with hb
                  exact Bool.noConfusion hb
                · intro _
                  rw [hval] at hbal
                  rw [hpool] at hcap
                  refine ⟨fun hlt2 => absurd hlt2 hbal, fun _ => ?_⟩
                  exact ⟨fun _ => rfl, fun hlt3 => absurd hcap (by omega)⟩
            · rw [if_neg hcap]
              refine ⟨?_, ?_, ?_, ?_⟩
              · intro hs2
                simp at hs2
              · intro _
                refine ⟨hchain, ?_⟩
                rw [hpool]
              · intro hc
                exact absurd hcond2 hc
              · intro sender' hfa' _
                injection hfa' with hss
                rw [← hss]
                refine ⟨?_, ?_, ?_⟩
                · intro msg' hv'
                  exact Except.noConfusion hv'
                · intro hv'
                  injection hv' with hb
                  exact Bool.noConfusion hb
                · intro _
                  rw [hval] at hbal
                  rw [hpool] at hcap
                  refine ⟨fun hlt2 => absurd hlt2 hbal, fun _ => ?_⟩
                  exact ⟨fun hge => absurd hge hcap, fun _ => rfl⟩
  · rw [addTransaction_eq_missing C s now tx hcond]
    refine ⟨?_, ?_, ?_, ?_⟩
    · intro _
      exact ⟨rfl, rfl⟩
    · intro hn
      exact Option.noConfusion hn
    · intro _
      rfl
    · intro sender hfa hc
      exact absurd hc hcond

/-- C4 witness: the amended theorem applied at a fresh ledger and the
concrete signed zero-amount transfer, exercising the acceptance branch. -/
theorem claim_C4_witness :
    ((witnessChain.addTransaction digestCrypto 5 txZero).1 = none →
      (witnessChain.addTransaction digestCrypto 5 txZero).2.chain =
        witnessChain.chain ∧
      (witnessChain.addTransaction digestCrypto 5
        txZero).2.pendingTransactions =
        witnessChain.pendingTransactions ++ [txZero]) ∧
    ((witnessChain.pendingTransactions.length <
        BLOCKCHAIN_CONFIG.MAX_PENDING_TRANSACTIONS →
      (witnessChain.addTransaction digestCrypto 5 txZero).1 = none)) :=
  ⟨(claim_C4 digestCrypto witnessChain (Reachable.init 0) 5 txZero).2.1,
   fun hlen =>
    ((((claim_C4 digestCrypto witnessChain (Reachable.init 0) 5
        txZero).2.2.2 "SENDER_PUBLIC_KEY_1" rfl
        (by refine ⟨by decide, by decide⟩)).2.2 rfl).2
      (by rw [show scanBalance witnessChain.chain "SENDER_PUBLIC_KEY_1" = 0
          from rfl, show txZero.amount = 0 from rfl])).2 hlen⟩

/-! ## Claim C3: pool bound, overflow handling, and eviction -/

lemma validateEnergyAmount_one : validateEnergyAmount 1 = .ok true := by
  unfold validateEnergyAmount
  rw [if_neg (by norm_num [VALIDATION_LIMITS.MIN_ENERGY_AMOUNT]),
    if_neg (by norm_num [VALIDATION_LIMITS.MAX_ENERGY_AMOUNT])]

/-- One `tokenizeEnergy(PROVIDER_ADDR_1, 1, 'mixed')` call. -/
def tokStep (s : Blockchain Digest) : Blockchain Digest :=
  match s.tokenizeEnergy "PROVIDER_ADDR_1" 1 "mixed" 0 with
  | .ok r => r.1
  | .error _ => s

/-- `n` successive tokenization calls on a fresh ledger. -/
def tokIter : Nat → Blockchain Digest
  | 0 => witnessChain
  | n + 1 => tokStep (tokIter n)

lemma tokStep_spec (s : Blockchain Digest) :
    (Reachable digestCrypto s → Reachable digestCrypto (tokStep s)) ∧
    (tokStep s).pendingTransactions.length =
      s.pendingTransactions.length + 1 := by
  obtain ⟨s', v, hok, hlen⟩ := tokenizeEnergy_succeeds s "PROVIDER_ADDR_1" 1
    "mixed" 0 rfl validateEnergyAmount_one rfl
  have hstep : tokStep s = s' := by
    unfold tokStep
    rw [hok]
  rw [hstep]
  exact ⟨fun hr => Reachable.tokenize _ _ _ _ hr hok, hlen⟩

lemma tokIter_spec (n : Nat) :
    Reachable digestCrypto (tokIter n) ∧
    (tokIter n).pendingTransactions.length = n := by
  induction n with
  | zero => exact ⟨Reachable.init 0, rfl⟩
  | succ n ih =>
    refine ⟨(tokStep_spec (tokIter n)).1 ih.1, ?_⟩
    rw [show tokIter (n + 1) = tokStep (tokIter n) from rfl,
      (tokStep_spec (tokIter n)).2, ih.2]

/-- C3 counterexample: `tokenizeEnergy` pushes into the pool without any
capacity check, so 1001 tokenization calls produce a *reachable* ledger
state whose pool holds 1001 > MAX_PENDING_TRANSACTIONS records — the
claimed reachable-state bound is false. -/
theorem claim_C3_counterexample :
    Reachable digestCrypto (tokIter 1001) ∧
    (tokIter 1001).pendingTransactions.length = 1001 ∧
    BLOCKCHAIN_CONFIG.MAX_PENDING_TRANSACTIONS < 1001 :=
  ⟨(tokIter_spec 1001).1, (tokIter_spec 1001).2,
   by norm_num [BLOCKCHAIN_CONFIG.MAX_PENDING_TRANSACTIONS]⟩

lemma minePool_take (s : Blockchain D) :
    minePool s =
      s.pendingTransactions.take BLOCKCHAIN_CONFIG.MAX_PENDING_TRANSACTIONS := by
  unfold minePool
  split_ifs with hgt
  · rfl
  · rw [List.take_of_length_le (by omega)]

/-- C3 (amended): the pool capacity bound is enforced only on the
`addTransaction` path: a valid, affordable submission against a pool at
`MAX_PENDING_TRANSACTIONS` records raises the capacity error and leaves
the pool and chain unchanged, while below capacity it appends exactly one
record (so filling the pool one-by-one fails exactly at the
`MAX_PENDING+1`-st submission).  But the bound is *not* a reachable-state
invariant: `tokenizeEnergy` appends without a capacity check (see the
counterexample), and `minePendingTransactions` seals only the first
`MAX_PENDING_TRANSACTIONS` pending records into the new block, silently
discarding the overflow rather than sealing it. -/
theorem claim_C3 {D : Type} (C : Crypto D) (s : Blockchain D) (now : Nat)
    (tx : Transaction) (sender : String)
    (hfa : tx.fromAddress = some sender)
    (hcond : jsTruthy tx.fromAddress ∧ tx.toAddress ≠ "")
    (hv : tx.isValid C = .ok true)
    (haff : ¬ (Blockchain.getBalanceOfAddress now s sender).1 < tx.amount) :
    (s.pendingTransactions.length ≥
        BLOCKCHAIN_CONFIG.MAX_PENDING_TRANSACTIONS →
      (s.addTransaction C now tx).1 = some .poolFull ∧
      (s.addTransaction C now tx).2.pendingTransactions =
        s.pendingTransactions ∧
      (s.addTransaction C now tx).2.chain = s.chain) ∧
    (s.pendingTransactions.length <
        BLOCKCHAIN_CONFIG.MAX_PENDING_TRANSACTIONS →
      (s.addTransaction C now tx).1 = none ∧
      (s.addTransaction C now tx).2.pendingTransactions =
        s.pendingTransactions ++ [tx]) ∧
    (∀ (addr : String) (energyData : EnergyInput)
        (nonce tStart tBlock tReward tEnd : Nat) (proofStr : String)
        (s' : Blockchain D),
      s.minePendingTransactions C addr energyData nonce tStart tBlock
        tReward tEnd proofStr = .ok s' →
      ∃ b, s'.chain = s.chain ++ [b] ∧
        b.transactions =
          s.pendingTransactions.take
            BLOCKCHAIN_CONFIG.MAX_PENDING_TRANSACTIONS) := by
  have heq := addTransaction_eq_validTrue C s now tx sender hfa hcond hv
  have hstate := getBalanceOfAddress_state s now sender
  have hpool : (Blockchain.getBalanceOfAddress now s
      sender).2.pendingTransactions = s.pendingTransactions := by
    rw [hstate]
  refine ⟨?_, ?_, ?_⟩
  · intro hcap
    rw [heq, if_neg haff, if_pos (by rw [hpool]; exact hcap)]
    refine ⟨rfl, hpool, ?_⟩
    rw [hstate]
  · intro hlt
    rw [heq, if_neg haff, if_neg (by rw [hpool]; omega)]
    refine ⟨rfl, ?_⟩
    rw [hpool]
  · intro addr energyData nonce tStart tBlock tReward tEnd proofStr s' hok
    rw [minePendingTransactions_ok_state hok]
    refine ⟨minedBlock C energyData nonce tBlock proofStr s, ?_, ?_⟩
    · unfold minedState Blockchain.invalidateCaches
      rfl
    · rw [show (minedBlock C energyData nonce tBlock proofStr
        s).transactions = minePool s from rfl, minePool_take]

/-- A reachable-shaped ledger whose pool is exactly at capacity. -/
def fullPoolChain : Blockchain Digest :=
  { witnessChain with pendingTransactions := List.replicate 1000 txZero }

/-- C3 witness: the amended theorem applied at a pool exactly at capacity
(the 1001-st submission) and at a pool below capacity. -/
theorem claim_C3_witness :
    (fullPoolChain.pendingTransactions.length ≥
        BLOCKCHAIN_CONFIG.MAX_PENDING_TRANSACTIONS ∧
      (fullPoolChain.addTransaction digestCrypto 5 txZero).1 =
        some .poolFull ∧
      (fullPoolChain.addTransaction digestCrypto 5
        txZero).2.pendingTransactions = fullPoolChain.pendingTransactions ∧
      (fullPoolChain.addTransaction digestCrypto 5 txZero).2.chain =
        fullPoolChain.chain) ∧
    (witnessChain.pendingTransactions.length <
        BLOCKCHAIN_CONFIG.MAX_PENDING_TRANSACTIONS ∧
      (witnessChain.addTransaction digestCrypto 5 txZero).1 = none ∧
      (witnessChain.addTransaction digestCrypto 5
        txZero).2.pendingTransactions =
        witnessChain.pendingTransactions ++ [txZero]) :=
  by
  have hcap : fullPoolChain.pendingTransactions.length ≥
      BLOCKCHAIN_CONFIG.MAX_PENDING_TRANSACTIONS := by
    rw [show fullPoolChain.pendingTransactions =
      List.replicate 1000 txZero from rfl, List.length_replicate]
    norm_num [BLOCKCHAIN_CONFIG.MAX_PENDING_TRANSACTIONS]
  exact ⟨⟨hcap,
    (claim_C3 digestCrypto fullPoolChain 5 txZero "SENDER_PUBLIC_KEY_1" rfl
      ⟨by decide, by decide⟩ rfl (by decide)).1 hcap⟩,
   ⟨by decide,
    (claim_C3 digestCrypto witnessChain 5 txZero "SENDER_PUBLIC_KEY_1" rfl
      ⟨by decide, by decide⟩ rfl (by decide)).2.1 (by decide)⟩⟩

/-! ## Claim C8: difficulty adjustment and bounds -/

lemma adjustDifficulty_bounds (d chainLength : Nat) (hist : List Nat)
    (h1 : BLOCKCHAIN_CONFIG.MIN_DIFFICULTY ≤ d)
    (h2 : d ≤ BLOCKCHAIN_CONFIG.MAX_DIFFICULTY) :
    BLOCKCHAIN_CONFIG.MIN_DIFFICULTY ≤ adjustDifficulty d chainLength hist ∧
    adjustDifficulty d chainLength hist ≤
      BLOCKCHAIN_CONFIG.MAX_DIFFICULTY := by
  unfold adjustDifficulty
  simp only [BLOCKCHAIN_CONFIG.MIN_DIFFICULTY,
    BLOCKCHAIN_CONFIG.MAX_DIFFICULTY] at h1 h2 ⊢
  split_ifs <;> omega

lemma addTransaction_difficulty (C : Crypto D) (s : Blockchain D) (now : Nat)
    (tx : Transaction) :
    (s.addTransaction C now tx).2.difficulty = s.difficulty := by
  rcases addTransaction_state C s now tx with hst | ⟨sender, _, hst | hst⟩ <;>
    rw [hst]
  · rw [getBalanceOfAddress_state]
  · rw [show ({ (Blockchain.getBalanceOfAddress now s sender).2 with
      pendingTransactions :=
        (Blockchain.getBalanceOfAddress now s
          sender).2.pendingTransactions ++ [tx] } : Blockchain D).difficulty =
      (Blockchain.getBalanceOfAddress now s sender).2.difficulty from rfl]
    rw [getBalanceOfAddress_state]

/-- Invariant: the difficulty of every reachable state stays within
`[MIN_DIFFICULTY, MAX_DIFFICULTY]`. -/
lemma reachable_difficulty {C : Crypto D} {s : Blockchain D}
    (h : Reachable C s) :
    BLOCKCHAIN_CONFIG.MIN_DIFFICULTY ≤ s.difficulty ∧
    s.difficulty ≤ BLOCKCHAIN_CONFIG.MAX_DIFFICULTY := by
  induction h with
  | init t0 =>
    exact ⟨by norm_num [Blockchain.init, BLOCKCHAIN_CONFIG.MIN_DIFFICULTY,
        BLOCKCHAIN_CONFIG.INITIAL_DIFFICULTY],
      by norm_num [Blockchain.init, BLOCKCHAIN_CONFIG.MAX_DIFFICULTY,
        BLOCKCHAIN_CONFIG.INITIAL_DIFFICULTY]⟩
  | @addTx s now tx hr ih =>
    rw [addTransaction_difficulty]
    exact ih
  | @getBalance s now a hr ih =>
    rw [getBalanceOfAddress_state]
    exact ih
  | @tokenize s s' v p e src now hr hok ih =>
    obtain ⟨tx, prov, hst⟩ := tokenizeEnergy_ok_state hok
    rw [hst]
    exact ih
  | @alloc s s' tx f t u w now hr hok ih =>
    rw [allocateCompute_ok_state hok]
    exact ih
  | @purchase s s' tx f ca now hr hok ih =>
    rw [purchaseCarbonCredit_ok_state hok]
    exact ih
  | @mine s s' addr ed nonce t1 t2 t3 t4 p hr hok ih =>
    rw [minePendingTransactions_ok_state hok, minedState_difficulty]
    exact adjustDifficulty_bounds _ _ _ ih.1 ih.2

open BLOCKCHAIN_CONFIG in
/-- C8: after a block is appended the difficulty becomes
`adjustDifficulty` of the new chain length and the updated block-time
window; the adjustment fires exactly when the chain length is a multiple
of the interval and at least two samples exist, moving one step toward the
target band (capped at MAX, floored at MIN, unchanged inside the band);
and in every reachable state — and for any bounded input difficulty, no
matter how extreme the samples — the difficulty stays within
`[MIN_DIFFICULTY, MAX_DIFFICULTY]`. -/
theorem claim_C8 {D : Type} (C : Crypto D) (s : Blockchain D)
    (h : Reachable C s) (d chainLength : Nat) (hist : List Nat) :
    (MIN_DIFFICULTY ≤ s.difficulty ∧ s.difficulty ≤ MAX_DIFFICULTY) ∧
    (∀ (addr : String) (ed : EnergyInput) (nonce t1 t2 t3 t4 : Nat)
        (p : String) (s' : Blockchain D),
      s.minePendingTransactions C addr ed nonce t1 t2 t3 t4 p = .ok s' →
      s'.difficulty =
        adjustDifficulty s.difficulty (s.chain.length + 1)
          (mineHistory t1 t4 s)) ∧
    (chainLength % DIFFICULTY_ADJUSTMENT_INTERVAL ≠ 0 →
      adjustDifficulty d chainLength hist = d) ∧
    (hist.length < 2 → adjustDifficulty d chainLength hist = d) ∧
    (chainLength % DIFFICULTY_ADJUSTMENT_INTERVAL = 0 → 2 ≤ hist.length →
      (avgBlockTime hist < TARGET_BLOCK_TIME * 0.5 →
        adjustDifficulty d chainLength hist = min (d + 1) MAX_DIFFICULTY) ∧
      (avgBlockTime hist > TARGET_BLOCK_TIME * 2 →
        adjustDifficulty d chainLength hist = max (d - 1) MIN_DIFFICULTY) ∧
      (TARGET_BLOCK_TIME * 0.5 ≤ avgBlockTime hist →
        avgBlockTime hist ≤ TARGET_BLOCK_TIME * 2 →
        adjustDifficulty d chainLength hist = d)) ∧
    (MIN_DIFFICULTY ≤ d → d ≤ MAX_DIFFICULTY →
      MIN_DIFFICULTY ≤ adjustDifficulty d chainLength hist ∧
      adjustDifficulty d chainLength hist ≤ MAX_DIFFICULTY) := by
  refine ⟨reachable_difficulty h, ?_, ?_, ?_, ?_, adjustDifficulty_bounds d
    chainLength hist⟩
  · intro addr ed nonce t1 t2 t3 t4 p s' hok
    rw [minePendingTransactions_ok_state hok, minedState_difficulty]
  · intro hne
    unfold adjustDifficulty
    rw [if_pos hne]
  · intro hlen
    unfold adjustDifficulty
    by_cases hne : chainLength % DIFFICULTY_ADJUSTMENT_INTERVAL ≠ 0
    · rw [if_pos hne]
    · rw [if_neg hne, if_pos hlen]
  · intro hmod hlen
    unfold adjustDifficulty
    rw [if_neg (by simpa using hmod), if_neg (by omega)]
    refine ⟨?_, ?_, ?_⟩
    · intro hfast
      rw [if_pos hfast]
    · intro hslow
      rw [if_neg (by exact not_lt.mpr (le_of_lt (lt_of_le_of_lt
        (by norm_num [TARGET_BLOCK_TIME]) hslow))), if_pos hslow]
    · intro hlo hhi
      rw [if_neg (not_lt.mpr hlo), if_neg (not_lt.mpr hhi)]

open BLOCKCHAIN_CONFIG in
/-- C8 witness: the theorem applied at a fresh ledger, a concrete
difficulty, chain length and sample window. -/
theorem claim_C8_witness :
    (MIN_DIFFICULTY ≤ witnessChain.difficulty ∧
      witnessChain.difficulty ≤ MAX_DIFFICULTY) ∧
    ((7 : Nat) % DIFFICULTY_ADJUSTMENT_INTERVAL ≠ 0 ∧
      adjustDifficulty 4 7 [25, 12000] = 4) ∧
    (([25, 12000] : List Nat).length ≥ 2 ∧
      (20 : Nat) % DIFFICULTY_ADJUSTMENT_INTERVAL = 0) := by
  refine ⟨(claim_C8 digestCrypto witnessChain (Reachable.init 0) 4 7
    [25, 12000]).1, ⟨by decide, ?_⟩, by decide, by decide⟩
  exact (claim_C8 digestCrypto witnessChain (Reachable.init 0) 4 7
    [25, 12000]).2.2.1 (by decide)

/-! ## Claim C2: chain validation and tamper detection -/

/-- The record-validity check passes (returns `true`, without throwing). -/
def TxOk (C : Crypto D) (tx : Transaction) : Prop :=
  tx.isValid C = .ok true

/-- A record that cannot make `isValid` throw: any sender comes with a
non-empty signature.  Every record sealed through the public API has this
shape (system records have no sender; `addTransaction` only admits records
whose validity check returned a boolean). -/
def SigOk (tx : Transaction) : Prop :=
  ∀ sender, tx.fromAddress = some sender →
    ∃ sg, tx.signature = some sg ∧ sg ≠ ""

/-- The three per-block conditions of `isChainValid` for a block and its
predecessor: (a) every record passes the validity check, (b) the stored
hash equals the recomputed one, (c) the linkage holds. -/
def BlockPass (C : Crypto D) (prevb cur : Block D) : Prop :=
  (∀ tx ∈ cur.transactions, TxOk C tx) ∧
  cur.hash = cur.calculateHash C ∧
  cur.previousHash = prevb.hash

/-- The claim's validity condition: for every index `i > 0`, conditions
(a), (b), (c) hold between `chain[i]` and `chain[i-1]`. -/
def ChainOk (C : Crypto D) (ch : List (Block D)) : Prop :=
  ∀ i, 0 < i → ∀ cur prevb, ch[i]? = some cur → ch[i - 1]? = some prevb →
    BlockPass C prevb cur

/-- The same condition walked pairwise, mirroring the scan. -/
def PairwiseOk (C : Crypto D) : Block D → List (Block D) → Prop
  | _, [] => True
  | prev, cur :: rest => BlockPass C prev cur ∧ PairwiseOk C cur rest

/-- In-place list update at one index (a JS field mutation). -/
def modifyAt {α : Type} : List α → Nat → (α → α) → List α
  | [], _, _ => []
  | x :: t, 0, f => f x :: t
  | x :: t, n + 1, f => x :: modifyAt t n f

/-- Mutating the `amount` field of transaction `j` of sealed block `i`. -/
def tamperAmount (ch : List (Block D)) (i j : Nat) (a' : ℚ) :
    List (Block D) :=
  modifyAt ch i (fun b =>
    { b with transactions :=
        modifyAt b.transactions j (fun tx => { tx with amount := a' }) })

/-- Mutating the `signature` field of transaction `j` of sealed block `i`
to the empty string (`chain[i].transactions[j].signature = ''`). -/
def tamperSignature (ch : List (Block D)) (i j : Nat) : List (Block D) :=
  modifyAt ch i (fun b =>
    { b with transactions :=
        (modifyAt b.transactions j
          (fun tx => { tx with signature := some "" })) })

lemma getElem?_modifyAt_self {α : Type} (l : List α) (j : Nat) (f : α → α) :
    (modifyAt l j f)[j]? = (l[j]?).map f := by
  induction l generalizing j with
  | nil => simp [modifyAt]
  | cons x t ih =>
    cases j with
    | zero => simp [modifyAt]
    | succ n => simpa [modifyAt] using ih n

lemma mem_modifyAt {α : Type} (l : List α) (i : Nat) (f : α → α) (x : α)
    (hx : x ∈ modifyAt l i f) : x ∈ l ∨ ∃ y ∈ l, x = f y := by
  induction l generalizing i with
  | nil => cases hx
  | cons z t ih =>
    cases i with
    | zero =>
      rw [modifyAt] at hx
      rcases List.mem_cons.mp hx with hxe | hxt
      · exact Or.inr ⟨z, List.mem_cons_self z t, hxe⟩
      · exact Or.inl (List.mem_cons_of_mem z hxt)
    | succ n =>
      rw [modifyAt] at hx
      rcases List.mem_cons.mp hx with hxe | hxt
      · exact Or.inl (hxe ▸ List.mem_cons_self z t)
      · rcases ih n hxt with h | ⟨y, hy, hxy⟩
        · exact Or.inl (List.mem_cons_of_mem z h)
        · exact Or.inr ⟨y, List.mem_cons_of_mem z hy, hxy⟩

/-- A record that passed the validity check cannot make the check throw
after its amount is mutated. -/
lemma txok_modified_no_error (C : Crypto D) (tx : Transaction) (a' : ℚ)
    (h : TxOk C tx) :
    ∃ v, Transaction.isValid C { tx with amount := a' } = .ok v := by
  unfold TxOk at h
  unfold Transaction.isValid at h ⊢
  rw [show ({ tx with amount := a' } : Transaction).fromAddress =
    tx.fromAddress from rfl]
  rw [show ({ tx with amount := a' } : Transaction).signature =
    tx.signature from rfl]
  cases hfa : tx.fromAddress with
  | none => exact ⟨true, rfl⟩
  | some sender =>
    rw [hfa] at h
    cases hsg : tx.signature with
    | none =>
      rw [hsg] at h
      exact Except.noConfusion h
    | some sg =>
      rw [hsg] at h
      dsimp only at h ⊢
      by_cases hne : sg = ""
      · rw [if_pos hne] at h
        exact Except.noConfusion h
      · rw [if_neg hne]
        exact ⟨_, rfl⟩

/-- A record with a present, non-empty signature (or no sender) never
makes `isValid` throw. -/
lemma sigOk_no_error (C : Crypto D) (tx : Transaction) (h : SigOk tx) :
    ∃ v, tx.isValid C = .ok v := by
  unfold Transaction.isValid
  cases hfa : tx.fromAddress with
  | none => exact ⟨true, rfl⟩
  | some sender =>
    obtain ⟨sg, hsg, hne⟩ := h sender hfa
    rw [hsg]
    dsimp only
    rw [if_neg hne]
    exact ⟨_, rfl⟩

/-- A record that passed the validity check has the non-throwing signature
shape: its sender (if any) comes with a non-empty signature. -/
lemma txOk_sigOk (C : Crypto D) (tx : Transaction)
    (h : tx.isValid C = .ok true) : SigOk tx := by
  intro sender hfa
  unfold Transaction.isValid at h
  rw [hfa] at h
  cases hsg : tx.signature with
  | none =>
    rw [hsg] at h
    exact Except.noConfusion h
  | some sg =>
    rw [hsg] at h
    dsimp only at h
    by_cases hemp : sg = ""
    · rw [if_pos hemp] at h
      exact Except.noConfusion h
    · exact ⟨sg, rfl, hemp⟩

/-- Clearing the signature of a sender-carrying record makes the validity
check throw. -/
lemma isValid_empty_sig (C : Crypto D) (tx : Transaction) (sender : String)
    (hfa : tx.fromAddress = some sender) :
    Transaction.isValid C { tx with signature := some "" } =
      .error "No signature in this transaction" := by
  unfold Transaction.isValid
  rw [show ({ tx with signature := some "" } : Transaction).fromAddress =
    tx.fromAddress from rfl, hfa]
  rfl

lemma validTxList_all_ok (C : Crypto D) (l : List Transaction)
    (h : ∀ tx ∈ l, TxOk C tx) : validTxList C l = .ok true := by
  induction l with
  | nil => rfl
  | cons tx rest ih =>
    unfold validTxList
    rw [h tx (List.mem_cons_self tx rest)]
    exact ih (fun tx2 h2 => h tx2 (List.mem_cons_of_mem tx h2))

lemma validTxList_no_error (C : Crypto D) (l : List Transaction)
    (h : ∀ tx ∈ l, ∃ v, tx.isValid C = .ok v) :
    ∃ v, validTxList C l = .ok v := by
  induction l with
  | nil => exact ⟨true, rfl⟩
  | cons tx rest ih =>
    obtain ⟨v, hv⟩ := h tx (List.mem_cons_self tx rest)
    unfold validTxList
    rw [hv]
    cases v
    · exact ⟨false, rfl⟩
    · exact ih (fun tx2 h2 => h tx2 (List.mem_cons_of_mem tx h2))

lemma validTxList_ok_true (C : Crypto D) (l : List Transaction) :
    validTxList C l = .ok true → ∀ tx ∈ l, TxOk C tx := by
  induction l with
  | nil =>
    intro _ tx ht
    cases ht
  | cons tx0 rest ih =>
    intro hok tx ht
    unfold validTxList at hok
    rcases hv : tx0.isValid C with m | b <;> rw [hv] at hok
    · exact Except.noConfusion hok
    · cases b
      · injection hok with hb
        exact Bool.noConfusion hb
      · rcases List.mem_cons.mp ht with hxe | hxt
        · rw [hxe]
          exact hv
        · exact ih hok tx hxt

/-- Clearing the signature of record `j` of a list of passing records
makes the block-level check throw: the earlier records still pass, so the
scan reaches the cleared record and propagates the throw. -/
lemma validTxList_modified_throw (C : Crypto D) (l : List Transaction) :
    ∀ (j : Nat) (txj : Transaction) (sender : String),
    (∀ tx ∈ l, TxOk C tx) →
    l[j]? = some txj → txj.fromAddress = some sender →
    validTxList C
      (modifyAt l j (fun tx => { tx with signature := some "" })) =
      .error "No signature in this transaction" := by
  induction l with
  | nil =>
    intro j txj sender _ hj _
    simp at hj
  | cons x t ih =>
    intro j txj sender hall hj hfa
    cases j with
    | zero =>
      rw [List.getElem?_cons_zero] at hj
      injection hj with hx
      rw [show modifyAt (x :: t) 0
          (fun tx => { tx with signature := some "" }) =
        { x with signature := some "" } :: t from rfl]
      unfold validTxList
      rw [isValid_empty_sig C x sender (by rw [hx]; exact hfa)]
    | succ n =>
      rw [List.getElem?_cons_succ] at hj
      rw [show modifyAt (x :: t) (n + 1)
          (fun tx => { tx with signature := some "" }) =
        x :: modifyAt t n (fun tx => { tx with signature := some "" })
        from rfl]
      unfold validTxList
      rw [show Transaction.isValid C x = .ok true from
        hall x (List.mem_cons_self x t)]
      exact ih n txj sender
        (fun tx2 h2 => hall tx2 (List.mem_cons_of_mem x h2)) hj hfa

lemma chainScan_spec (C : Crypto D) [DecidableEq D] (rest : List (Block D)) :
    ∀ prev : Block D,
    (∀ b ∈ rest, ∀ tx ∈ b.transactions, SigOk tx) →
    (∃ v, chainScan C prev rest = .ok v) ∧
    (chainScan C prev rest = .ok true ↔ PairwiseOk C prev rest) := by
  induction rest with
  | nil =>
    intro prev _
    exact ⟨⟨true, rfl⟩, by simp [chainScan, PairwiseOk]⟩
  | cons cur rest ih =>
    intro prev hsig
    have hsigcur : ∀ tx ∈ cur.transactions, SigOk tx :=
      fun tx ht => hsig cur (List.mem_cons_self cur rest) tx ht
    have hsigrest : ∀ b ∈ rest, ∀ tx ∈ b.transactions, SigOk tx :=
      fun b hb => hsig b (List.mem_cons_of_mem cur hb)
    obtain ⟨v, hv⟩ := validTxList_no_error C cur.transactions
      (fun tx ht => sigOk_no_error C tx (hsigcur tx ht))
    unfold chainScan
    rw [show cur.hasValidTransactions C = validTxList C cur.transactions
      from rfl, hv]
    dsimp only
    cases v with
    | false =>
      rw [if_pos (by simp)]
      refine ⟨⟨false, rfl⟩, ?_⟩
      constructor
      · intro hfalse
        injection hfalse with hb
        exact Bool.noConfusion hb
      · rintro ⟨⟨hall, _, _⟩, _⟩
        have := validTxList_all_ok C cur.transactions hall
        rw [hv] at this
        injection this with hb
        exact Bool.noConfusion hb
    | true =>
      rw [if_neg (by simp)]
      by_cases hh : cur.hash ≠ cur.calculateHash C
      · rw [if_pos hh]
        refine ⟨⟨false, rfl⟩, ?_⟩
        constructor
        · intro hfalse
          injection hfalse with hb
          exact Bool.noConfusion hb
        · rintro ⟨⟨_, hhash, _⟩, _⟩
          exact absurd hhash hh
      · rw [if_neg hh]
        by_cases hl : cur.previousHash ≠ prev.hash
        · rw [if_pos hl]
          refine ⟨⟨false, rfl⟩, ?_⟩
          constructor
          · intro hfalse
            injection hfalse with hb
            exact Bool.noConfusion hb
          · rintro ⟨⟨_, _, hlink⟩, _⟩
            exact absurd hlink hl
        · rw [if_neg hl]
          obtain ⟨hex, hiff⟩ := ih cur hsigrest
          refine ⟨hex, ?_⟩
          rw [hiff]
          constructor
          · intro hp
            exact ⟨⟨validTxList_ok_true C _ hv, not_not.mp hh,
              not_not.mp hl⟩, hp⟩
          · rintro ⟨_, hp⟩
            exact hp

lemma pairwiseOk_iff_chainOk (C : Crypto D) (rest : List (Block D)) :
    ∀ g : Block D, PairwiseOk C g rest ↔ ChainOk C (g :: rest) := by
  induction rest with
  | nil =>
    intro g
    constructor
    · intro _ i hi cur prevb hcur _
      cases i with
      | zero => omega
      | succ n =>
        simp at hcur
    · intro _
      trivial
  | cons cur0 rest ih =>
    intro g
    constructor
    · rintro ⟨hp, hrest⟩ i hi cur prevb hcur hprev
      cases i with
      | zero => omega
      | succ n =>
        cases n with
        | zero =>
          rw [List.getElem?_cons_succ, List.getElem?_cons_zero] at hcur
          injection hcur with hc
          rw [List.getElem?_cons_zero] at hprev
          injection hprev with hpv
          rw [← hc, ← hpv]
          exact hp
        | succ m =>
          rw [List.getElem?_cons_succ] at hcur
          rw [show m + 1 + 1 - 1 = m + 1 from rfl,
            List.getElem?_cons_succ] at hprev
          refine (ih cur0).mp hrest (m + 1) (by omega) cur prevb hcur ?_
          rw [show m + 1 - 1 = m from rfl]
          exact hprev
    · intro hall
      refine ⟨hall 1 (by omega) cur0 g (by simp) (by simp),
        (ih cur0).mpr ?_⟩
      intro i hi cur prevb hcur hprev
      cases i with
      | zero => omega
      | succ m =>
        refine hall (m + 2) (by omega) cur prevb ?_ ?_
        · rw [List.getElem?_cons_succ]
          exact hcur
        · rw [show m + 2 - 1 = m + 1 from rfl, List.getElem?_cons_succ]
          rw [show m + 1 - 1 = m from rfl] at hprev
          exact hprev

/-- A chain whose sealed contents are all self-consistent: every per-index
condition of `isChainValid` holds and every sealed record passes the
validity check. -/
def SealedOk (C : Crypto D) (ch : List (Block D)) : Prop :=
  ChainOk C ch ∧ ∀ b ∈ ch, ∀ tx ∈ b.transactions, TxOk C tx

lemma tamper_scan_false (C : Crypto D) [DecidableEq D]
    (hinj : Function.Injective C.blockHash) (rest : List (Block D)) :
    ∀ (prev : Block D) (i j : Nat) (a' : ℚ) (cur : Block D)
      (txj : Transaction),
    PairwiseOk C prev rest →
    rest[i]? = some cur →
    cur.transactions[j]? = some txj →
    a' ≠ txj.amount →
    chainScan C prev
      (modifyAt rest i (fun b =>
        { b with transactions :=
            (modifyAt b.transactions j
              (fun tx => { tx with amount := a' })) })) = .ok false := by
  induction rest with
  | nil =>
    intro prev i j a' cur txj _ hcur _ _
    simp at hcur
  | cons cur0 rest ih =>
    intro prev i j a' cur txj hok hcur htxj hne
    cases i with
    | zero =>
      rw [List.getElem?_cons_zero] at hcur
      injection hcur with hc
      rw [← hc] at htxj
      rw [show modifyAt (cur0 :: rest) 0 (fun b =>
        { b with transactions :=
            (modifyAt b.transactions j
              (fun tx => { tx with amount := a' })) }) =
        { cur0 with transactions :=
            (modifyAt cur0.transactions j
              (fun tx => { tx with amount := a' })) } :: rest from rfl]
      obtain ⟨v, hv⟩ := validTxList_no_error C
        (modifyAt cur0.transactions j (fun tx => { tx with amount := a' }))
        (by
          intro tx2 ht2
          rcases mem_modifyAt _ _ _ _ ht2 with hmem | ⟨y, hy, hxy⟩
          · exact sigOk_no_error C tx2 (by
              intro sender hfa
              have := hok.1.1 tx2 hmem
              unfold TxOk Transaction.isValid at this
              rw [hfa] at this
              cases hsg : tx2.signature with
              | none =>
                rw [hsg] at this
                exact Except.noConfusion this
              | some sg =>
                rw [hsg] at this
                dsimp only at this
                by_cases hemp : sg = ""
                · rw [if_pos hemp] at this
                  exact Except.noConfusion this
                · exact ⟨sg, rfl, hemp⟩)
          · rw [hxy]
            exact txok_modified_no_error C y a' (hok.1.1 y hy))
      unfold chainScan
      rw [show Block.hasValidTransactions C
        { cur0 with transactions :=
            (modifyAt cur0.transactions j
              (fun tx => { tx with amount := a' })) } =
        validTxList C
          (modifyAt cur0.transactions j
            (fun tx => { tx with amount := a' })) from rfl, hv]
      dsimp only
      cases v with
      | false => rw [if_pos (by simp)]
      | true =>
        rw [if_neg (by simp)]
        have hhash :
            ({ cur0 with transactions :=
                (modifyAt cur0.transactions j
                  (fun tx => { tx with amount := a' })) } : Block D).hash ≠
            Block.calculateHash C
              { cur0 with transactions :=
                  (modifyAt cur0.transactions j
                    (fun tx => { tx with amount := a' })) } := by
          intro heq
          have h1 : ({ cur0 with transactions :=
              (modifyAt cur0.transactions j
                (fun tx => { tx with amount := a' })) } : Block D).hash =
              C.blockHash cur0.contents := hok.1.2.1
          rw [h1] at heq
          have hcont := hinj heq
          have htr : cur0.transactions =
              modifyAt cur0.transactions j
                (fun tx => { tx with amount := a' }) :=
            congrArg BlockContents.transactions hcont
          have hj2 : (modifyAt cur0.transactions j
              (fun tx => { tx with amount := a' }))[j]? =
              some { txj with amount := a' } := by
            rw [getElem?_modifyAt_self, htxj]
            rfl
          rw [← htr, htxj] at hj2
          injection hj2 with hj3
          exact hne (congrArg Transaction.amount hj3).symm
        rw [if_pos hhash]
    | succ n =>
      rw [show modifyAt (cur0 :: rest) (n + 1) (fun b =>
        { b with transactions :=
            (modifyAt b.transactions j
              (fun tx => { tx with amount := a' })) }) =
        cur0 :: modifyAt rest n (fun b =>
          { b with transactions :=
              (modifyAt b.transactions j
                (fun tx => { tx with amount := a' })) }) from rfl]
      unfold chainScan
      rw [show cur0.hasValidTransactions C =
        validTxList C cur0.transactions from rfl,
        validTxList_all_ok C _ hok.1.1]
      dsimp only
      rw [if_neg (by simp), if_neg (not_not_intro hok.1.2.1),
        if_neg (not_not_intro hok.1.2.2)]
      rw [List.getElem?_cons_succ] at hcur
      exact ih cur0 n j a' cur txj hok.2 hcur htxj hne

/-- Clearing the signature of a sender-carrying sealed record of an
otherwise-passing suffix makes the scan propagate the
'No signature in this transaction' throw out of the validity check. -/
lemma tamper_scan_throw (C : Crypto D) [DecidableEq D]
    (rest : List (Block D)) :
    ∀ (prev : Block D) (i j : Nat) (cur : Block D) (txj : Transaction)
      (sender : String),
    PairwiseOk C prev rest →
    rest[i]? = some cur →
    cur.transactions[j]? = some txj →
    txj.fromAddress = some sender →
    chainScan C prev
      (modifyAt rest i (fun b =>
        { b with transactions :=
            (modifyAt b.transactions j
              (fun tx => { tx with signature := some "" })) })) =
      .error "No signature in this transaction" := by
  induction rest with
  | nil =>
    intro prev i j cur txj sender _ hcur _ _
    simp at hcur
  | cons cur0 rest ih =>
    intro prev i j cur txj sender hok hcur htxj hfa
    cases i with
    | zero =>
      rw [List.getElem?_cons_zero] at hcur
      injection hcur with hc
      rw [← hc] at htxj
      rw [show modifyAt (cur0 :: rest) 0 (fun b =>
        { b with transactions :=
            (modifyAt b.transactions j
              (fun tx => { tx with signature := some "" })) }) =
        { cur0 with transactions :=
            (modifyAt cur0.transactions j
              (fun tx => { tx with signature := some "" })) } :: rest
        from rfl]
      unfold chainScan
      rw [show Block.hasValidTransactions C
        { cur0 with transactions :=
            (modifyAt cur0.transactions j
              (fun tx => { tx with signature := some "" })) } =
        validTxList C
          (modifyAt cur0.transactions j
            (fun tx => { tx with signature := some "" })) from rfl,
        validTxList_modified_throw C cur0.transactions j txj sender
          hok.1.1 htxj hfa]
    | succ n =>
      rw [show modifyAt (cur0 :: rest) (n + 1) (fun b =>
        { b with transactions :=
            (modifyAt b.transactions j
              (fun tx => { tx with signature := some "" })) }) =
        cur0 :: modifyAt rest n (fun b =>
          { b with transactions :=
              (modifyAt b.transactions j
                (fun tx => { tx with signature := some "" })) }) from rfl]
      unfold chainScan
      rw [show cur0.hasValidTransactions C =
        validTxList C cur0.transactions from rfl,
        validTxList_all_ok C _ hok.1.1]
      dsimp only
      rw [if_neg (by simp), if_neg (not_not_intro hok.1.2.1),
        if_neg (not_not_intro hok.1.2.2)]
      rw [List.getElem?_cons_succ] at hcur
      exact ih cur0 n j cur txj sender hok.2 hcur htxj hfa

/-- The pool after `getBalanceOfAddress` (a pure cache touch). -/
lemma getBalanceOfAddress_pool (s : Blockchain D) (now : Nat) (a : String) :
    (s.getBalanceOfAddress now a).2.pendingTransactions =
      s.pendingTransactions := by
  rw [getBalanceOfAddress_state]

/-- `addTransaction` never touches the chain. -/
lemma addTransaction_chain_eq (C : Crypto D) (s : Blockchain D) (now : Nat)
    (tx : Transaction) :
    (s.addTransaction C now tx).2.chain = s.chain := by
  rcases addTransaction_state C s now tx with hst | ⟨sender, hfa, hst | hst⟩
  · rw [hst]
  · rw [hst, getBalanceOfAddress_state]
  · rw [hst]
    have := getBalanceOfAddress_state s now sender
    rw [this]

/-- The pool after `addTransaction`: unchanged, or extended by the record
after its validity check returned `true`. -/
lemma addTransaction_pool (C : Crypto D) (s : Blockchain D) (now : Nat)
    (tx : Transaction) :
    (s.addTransaction C now tx).2.pendingTransactions =
      s.pendingTransactions ∨
    (tx.isValid C = .ok true ∧
      (s.addTransaction C now tx).2.pendingTransactions =
        s.pendingTransactions ++ [tx]) := by
  by_cases hcond : jsTruthy tx.fromAddress ∧ tx.toAddress ≠ ""
  · cases hfa : tx.fromAddress with
    | none =>
      exfalso
      rw [hfa] at hcond
      simp [jsTruthy] at hcond
    | some sender =>
      rcases hv : tx.isValid C with msg | b
      · rw [addTransaction_eq_throw C s now tx msg hcond hv]
        exact Or.inl rfl
      · cases b
        · rw [addTransaction_eq_invalid C s now tx hcond hv]
          exact Or.inl rfl
        · rw [addTransaction_eq_validTrue C s now tx sender hfa hcond hv]
          by_cases hbal : (Blockchain.getBalanceOfAddress now s sender).1 <
              tx.amount
          · rw [if_pos hbal]
            exact Or.inl (getBalanceOfAddress_pool s now sender)
          · rw [if_neg hbal]
            by_cases hcap : (Blockchain.getBalanceOfAddress now s
                sender).2.pendingTransactions.length ≥
                BLOCKCHAIN_CONFIG.MAX_PENDING_TRANSACTIONS
            · rw [if_pos hcap]
              exact Or.inl (getBalanceOfAddress_pool s now sender)
            · rw [if_neg hcap]
              refine Or.inr ⟨rfl, ?_⟩
              show (Blockchain.getBalanceOfAddress now s
                sender).2.pendingTransactions ++ [tx] = _
              rw [getBalanceOfAddress_pool]
  · rw [addTransaction_eq_missing C s now tx hcond]
    exact Or.inl rfl

/-- A successful `tokenizeEnergy` leaves the chain unchanged and appends
one system (null-sender) record to the pool. -/
lemma tokenizeEnergy_ok_pool {s s' : Blockchain D} {p src : String}
    {e v : ℚ} {now : Nat}
    (h : s.tokenizeEnergy p e src now = .ok (s', v)) :
    ∃ tx, tx.fromAddress = none ∧ s'.chain = s.chain ∧
      s'.pendingTransactions = s.pendingTransactions ++ [tx] := by
  unfold Blockchain.tokenizeEnergy at h
  rcases h1 : validateAddress p "providerAddress" with e1 | b1 <;>
    rw [h1] at h
  · cases h
  rcases h2 : validateEnergyAmount e with e2 | b2 <;> rw [h2] at h
  · cases h
  rcases h3 : validateEnergySource src with e3 | b3 <;> rw [h3] at h
  · cases h
  cases h
  exact ⟨_, rfl, rfl, rfl⟩

/-- The chain after `minePendingTransactions`: the old chain plus the
sealed block. -/
lemma minedState_chain {C : Crypto D} {addr : String}
    {energyData : EnergyInput} {nonce tStart tBlock tReward tEnd : Nat}
    {proofStr : String} {s : Blockchain D} :
    (minedState C addr energyData nonce tStart tBlock tReward tEnd proofStr
      s).chain =
      s.chain ++ [minedBlock C energyData nonce tBlock proofStr s] := rfl

/-- The sealed block carries exactly the (truncated) pool. -/
lemma minedBlock_transactions {C : Crypto D} {energyData : EnergyInput}
    {nonce tBlock : Nat} {proofStr : String} {s : Blockchain D} :
    (minedBlock C energyData nonce tBlock proofStr s).transactions =
      minePool s := rfl

/-- The truncated pool is a sub-collection of the pool. -/
lemma minePool_subset (s : Blockchain D) :
    ∀ tx ∈ minePool s, tx ∈ s.pendingTransactions := by
  intro tx htx
  unfold minePool at htx
  by_cases hlen : s.pendingTransactions.length >
      BLOCKCHAIN_CONFIG.MAX_PENDING_TRANSACTIONS
  · rw [if_pos hlen] at htx
    exact List.take_subset _ _ htx
  · rw [if_neg hlen] at htx
    exact htx

/-- The post-mine pool is a single system (null-sender) reward record. -/
lemma minedState_pool {C : Crypto D} {addr : String}
    {energyData : EnergyInput} {nonce tStart tBlock tReward tEnd : Nat}
    {proofStr : String} {s : Blockchain D} :
    ∃ tx, (minedState C addr energyData nonce tStart tBlock tReward tEnd
        proofStr s).pendingTransactions = [tx] ∧ tx.fromAddress = none :=
  ⟨_, rfl, rfl⟩

/-- Invariant: in every reachable state, every sealed record and every
pending record with a sender carries a non-empty signature — exactly the
shape under which the validity scan cannot throw.  (Pool records enter
through `addTransaction`, which only admits records whose validity check
returned a boolean, or as system records; sealed records are drawn from
the pool.) -/
lemma reachable_sigOk {C : Crypto D} {s : Blockchain D}
    (h : Reachable C s) :
    (∀ b ∈ s.chain, ∀ tx ∈ b.transactions, SigOk tx) ∧
    (∀ tx ∈ s.pendingTransactions, SigOk tx) := by
  induction h with
  | init t0 =>
    constructor
    · intro b hb tx htx
      rw [show (Blockchain.init C t0).chain = [createGenesisBlock C t0]
        from rfl] at hb
      have hb2 := List.mem_singleton.mp hb
      subst hb2
      rw [show (createGenesisBlock C t0).transactions =
        ([] : List Transaction) from rfl] at htx
      cases htx
    · intro tx htx
      rw [show (Blockchain.init C t0).pendingTransactions =
        ([] : List Transaction) from rfl] at htx
      cases htx
  | @addTx s now tx hr ih =>
    constructor
    · intro b hb
      rw [addTransaction_chain_eq C s now tx] at hb
      exact ih.1 b hb
    · intro t ht
      rcases addTransaction_pool C s now tx with hp | ⟨hv, hp⟩
      · rw [hp] at ht
        exact ih.2 t ht
      · rw [hp] at ht
        rcases List.mem_append.mp ht with h1 | h2
        · exact ih.2 t h1
        · have h3 := List.mem_singleton.mp h2
          subst h3
          exact txOk_sigOk C t hv
  | @getBalance s now a hr ih =>
    rw [getBalanceOfAddress_state]
    exact ih
  | @tokenize s s' v p e src now hr hok ih =>
    obtain ⟨tx2, hfa, hchain, hpool⟩ := tokenizeEnergy_ok_pool hok
    constructor
    · intro b hb
      rw [hchain] at hb
      exact ih.1 b hb
    · intro t ht
      rw [hpool] at ht
      rcases List.mem_append.mp ht with h1 | h2
      · exact ih.2 t h1
      · have h3 := List.mem_singleton.mp h2
        subst h3
        intro sender hfa2
        rw [hfa] at hfa2
        exact Option.noConfusion hfa2
  | @alloc s s' tx f t u w now hr hok ih =>
    rw [allocateCompute_ok_state hok]
    exact ih
  | @purchase s s' tx f ca now hr hok ih =>
    rw [purchaseCarbonCredit_ok_state hok]
    exact ih
  | @mine s s' addr ed nonce t1 t2 t3 t4 p hr hok ih =>
    rw [minePendingTransactions_ok_state hok]
    constructor
    · intro b hb
      rw [minedState_chain] at hb
      rcases List.mem_append.mp hb with h1 | h2
      · exact ih.1 b h1
      · have h3 := List.mem_singleton.mp h2
        subst h3
        intro tx2 htx2
        rw [minedBlock_transactions] at htx2
        exact ih.2 tx2 (minePool_subset s tx2 htx2)
    · intro t ht
      obtain ⟨rtx, hpl, hfa⟩ :=
        @minedState_pool D C addr ed nonce t1 t2 t3 t4 p s
      rw [hpl] at ht
      have h3 := List.mem_singleton.mp ht
      subst h3
      intro sender hfa2
      rw [hfa] at hfa2
      exact Option.noConfusion hfa2

/-- C2 (amended): for a chain whose sealed sender-carrying records hold
non-empty signatures — the shape of every ledger reachable through the
public API (`reachable_sigOk`) — `isChainValid()` returns a boolean which
is `true` iff for every block at index i > 0 (a) every contained record
passes the record-validity check, (b) the stored hash equals the hash
recomputed from the block's contents, and (c) the stored previousHash
equals the predecessor's hash — a failure at any position makes the whole
result false.  Tamper detection is field-dependent, not uniform over any
field: with a collision-free digest, mutating the *amount* of an
already-sealed transaction of a self-consistent chain makes the next
`isChainValid()` return false, while clearing the *signature* of a sealed
sender-carrying record makes the next `isChainValid()` propagate the
'No signature in this transaction' throw instead of returning a boolean
(see the counterexample). -/
theorem claim_C2 {D : Type} [DecidableEq D] (C : Crypto D)
    (s : Blockchain D) (hinj : Function.Injective C.blockHash)
    (hsig : ∀ b ∈ s.chain, ∀ tx ∈ b.transactions, SigOk tx)
    (i j : Nat) (a' : ℚ) :
    (∃ v, s.isChainValid C = .ok v) ∧
    (s.isChainValid C = .ok true ↔ ChainOk C s.chain) ∧
    (SealedOk C s.chain →
      ∀ (cur : Block D) (txj : Transaction), 0 < i →
      s.chain[i]? = some cur → cur.transactions[j]? = some txj →
      a' ≠ txj.amount →
      chainValid C (tamperAmount s.chain i j a') = .ok false) ∧
    (SealedOk C s.chain →
      ∀ (cur : Block D) (txj : Transaction) (sender : String), 0 < i →
      s.chain[i]? = some cur → cur.transactions[j]? = some txj →
      txj.fromAddress = some sender →
      chainValid C (tamperSignature s.chain i j) =
        .error "No signature in this transaction") := by
  unfold Blockchain.isChainValid chainValid
  cases hch : s.chain with
  | nil =>
    refine ⟨⟨true, rfl⟩, ?_, ?_, ?_⟩
    · constructor
      · intro _ i2 hi2 cur prevb hcur _
        simp at hcur
      · intro _
        rfl
    · intro _ cur txj hi hcur _ _
      simp at hcur
    · intro _ cur txj sender hi hcur _ _
      simp at hcur
  | cons g rest =>
    have hsig2 : ∀ b ∈ rest, ∀ tx ∈ b.transactions, SigOk tx := by
      intro b hb
      exact hsig b (by rw [hch]; exact List.mem_cons_of_mem g hb)
    obtain ⟨hex, hiff⟩ := chainScan_spec C rest g hsig2
    refine ⟨hex, ?_, ?_, ?_⟩
    · rw [hiff, pairwiseOk_iff_chainOk C rest g]
    · intro hsealed cur txj hi hcur htxj hne
      have hpw : PairwiseOk C g rest :=
        (pairwiseOk_iff_chainOk C rest g).mpr hsealed.1
      cases i with
      | zero => omega
      | succ n =>
        rw [show tamperAmount (g :: rest) (n + 1) j a' =
          g :: modifyAt rest n (fun b =>
            { b with transactions :=
                (modifyAt b.transactions j
                  (fun tx => { tx with amount := a' })) }) from rfl]
        rw [List.getElem?_cons_succ] at hcur
        exact tamper_scan_false C hinj rest g n j a' cur txj hpw hcur
          htxj hne
    · intro hsealed cur txj sender hi hcur htxj hfa
      have hpw : PairwiseOk C g rest :=
        (pairwiseOk_iff_chainOk C rest g).mpr hsealed.1
      cases i with
      | zero => omega
      | succ n =>
        rw [show tamperSignature (g :: rest) (n + 1) j =
          g :: modifyAt rest n (fun b =>
            { b with transactions :=
                (modifyAt b.transactions j
                  (fun tx => { tx with signature := some "" })) })
          from rfl]
        rw [List.getElem?_cons_succ] at hcur
        exact tamper_scan_throw C rest g n j cur txj sender hpw hcur
          htxj hfa

/-- A sealed block holding a system record and a signed transfer, linked
to the genesis. -/
def witnessBlock1 : Block Digest :=
  let pre := mkBlock digestCrypto 10 [txSystem, txZero]
    (createGenesisBlock digestCrypto 0).hash {}
  { pre with hash := pre.calculateHash digestCrypto }

/-- A ledger whose chain is genesis followed by `witnessBlock1`. -/
def witnessChain2 : Blockchain Digest :=
  { witnessChain with
    chain := [createGenesisBlock digestCrypto 0, witnessBlock1] }

lemma witnessChain2_sigOk :
    ∀ b ∈ witnessChain2.chain, ∀ tx ∈ b.transactions, SigOk tx := by
  intro b hb tx htx sender hfa
  rw [show witnessChain2.chain =
    [createGenesisBlock digestCrypto 0, witnessBlock1] from rfl] at hb
  rcases List.mem_cons.mp hb with rfl | hb2
  · rw [show (createGenesisBlock digestCrypto 0).transactions =
      ([] : List Transaction) from rfl] at htx
    cases htx
  · rcases List.mem_cons.mp hb2 with rfl | hb3
    · rw [show witnessBlock1.transactions = [txSystem, txZero] from rfl]
        at htx
      rcases List.mem_cons.mp htx with rfl | h4
      · exact Option.noConfusion
          (show (none : Option String) = some sender from hfa)
      · rcases List.mem_cons.mp h4 with rfl | h5
        · exact ⟨"SIGNATURE_HEX_1", rfl, by decide⟩
        · cases h5
    · cases hb3

lemma witnessChain2_sealedOk : SealedOk digestCrypto witnessChain2.chain := by
  constructor
  · intro i hi cur prevb hcur hprev
    cases i with
    | zero => omega
    | succ n =>
      cases n with
      | zero =>
        rw [show witnessChain2.chain[1]? = some witnessBlock1 from
          by simp [witnessChain2]] at hcur
        injection hcur with hc
        rw [show witnessChain2.chain[0]? =
          some (createGenesisBlock digestCrypto 0) from
          by simp [witnessChain2]] at hprev
        injection hprev with hp
        rw [← hc, ← hp]
        refine ⟨?_, rfl, rfl⟩
        intro tx htx
        rw [show witnessBlock1.transactions = [txSystem, txZero] from rfl]
          at htx
        rcases List.mem_cons.mp htx with rfl | h4
        · rfl
        · rcases List.mem_cons.mp h4 with rfl | h5
          · rfl
          · cases h5
      | succ m =>
        rw [show witnessChain2.chain[m + 2]? =
          (none : Option (Block Digest)) from by simp [witnessChain2]]
          at hcur
        exact Option.noConfusion hcur
  · intro b hb tx htx
    rw [show witnessChain2.chain =
      [createGenesisBlock digestCrypto 0, witnessBlock1] from rfl] at hb
    rcases List.mem_cons.mp hb with rfl | hb2
    · rw [show (createGenesisBlock digestCrypto 0).transactions =
        ([] : List Transaction) from rfl] at htx
      cases htx
    · rcases List.mem_cons.mp hb2 with rfl | hb3
      · rw [show witnessBlock1.transactions = [txSystem, txZero] from rfl]
          at htx
        rcases List.mem_cons.mp htx with rfl | h4
        · rfl
        · rcases List.mem_cons.mp h4 with rfl | h5
          · rfl
          · cases h5
      · cases hb3

/-- C2 counterexample: the claim says `isChainValid()` returns a boolean
and that mutating any field of a sealed transaction makes the next call
return false; but on a valid two-block chain, clearing the signature
field of the sealed signed transfer makes the next `isChainValid()`
propagate the 'No signature in this transaction' throw out of the
record-validity check instead of returning a boolean. -/
theorem claim_C2_counterexample :
    witnessChain2.isChainValid digestCrypto = .ok true ∧
    chainValid digestCrypto (tamperSignature witnessChain2.chain 1 1) =
      .error "No signature in this transaction" := by
  constructor
  · show chainScan digestCrypto (createGenesisBlock digestCrypto 0)
      [witnessBlock1] = .ok true
    refine ((chainScan_spec digestCrypto [witnessBlock1]
      (createGenesisBlock digestCrypto 0) ?_).2).mpr
      ((pairwiseOk_iff_chainOk digestCrypto [witnessBlock1]
        (createGenesisBlock digestCrypto 0)).mpr witnessChain2_sealedOk.1)
    intro b hb
    refine witnessChain2_sigOk b ?_
    rw [show witnessChain2.chain =
      [createGenesisBlock digestCrypto 0, witnessBlock1] from rfl]
    exact List.mem_cons_of_mem _ hb
  · show chainScan digestCrypto (createGenesisBlock digestCrypto 0)
      (modifyAt [witnessBlock1] 0 (fun b =>
        { b with transactions :=
            (modifyAt b.transactions 1
              (fun tx => { tx with signature := some "" })) })) =
      .error "No signature in this transaction"
    refine tamper_scan_throw digestCrypto [witnessBlock1]
      (createGenesisBlock digestCrypto 0) 0 1 witnessBlock1 txZero
      "SENDER_PUBLIC_KEY_1"
      ((pairwiseOk_iff_chainOk digestCrypto [witnessBlock1]
        (createGenesisBlock digestCrypto 0)).mpr witnessChain2_sealedOk.1)
      ?_ ?_ rfl
    · rw [List.getElem?_cons_zero]
    · rw [show witnessBlock1.transactions = [txSystem, txZero] from rfl,
        List.getElem?_cons_succ, List.getElem?_cons_zero]

/-- C2 witness: the theorem applied to a concrete two-block chain over the
ideal digest, tampering with the amount of the sealed system record and
with the signature of the sealed signed transfer. -/
theorem claim_C2_witness :
    (∃ v, witnessChain2.isChainValid digestCrypto = .ok v) ∧
    (witnessChain2.isChainValid digestCrypto = .ok true ↔
      ChainOk digestCrypto witnessChain2.chain) ∧
    chainValid digestCrypto (tamperAmount witnessChain2.chain 1 0 99) =
      .ok false ∧
    chainValid digestCrypto (tamperSignature witnessChain2.chain 1 1) =
      .error "No signature in this transaction" := by
  have hmain := claim_C2 digestCrypto witnessChain2
    digestCrypto_blockHash_injective witnessChain2_sigOk 1 0 99
  have hmain2 := claim_C2 digestCrypto witnessChain2
    digestCrypto_blockHash_injective witnessChain2_sigOk 1 1 99
  refine ⟨hmain.1, hmain.2.1, ?_, ?_⟩
  · exact hmain.2.2.1 witnessChain2_sealedOk witnessBlock1 txSystem
      (by omega) (by simp [witnessChain2]) rfl (by decide)
  · exact hmain2.2.2.2 witnessChain2_sealedOk witnessBlock1 txZero
      "SENDER_PUBLIC_KEY_1" (by omega) (by simp [witnessChain2]) rfl rfl

end NewCoin
